import Mathlib

/-!
Verification of the maya-scripts repository's string/text-processing routines.

The Python sources are shallowly embedded: filenames and file lines are
`List Char`, Python ints are `ℤ` (or `Nat` where provably non-negative),
Python exceptions are an explicit `PyErr` error type threaded through
`Except`, and Python floats are modelled as exact decimal fractions
(mantissa / 10^exponent), which is faithful for the decimal literals and
"%f"-formatted text the scripts exchange (IEEE-754 binary rounding and the
sign of negative zero are idealized away; no theorem below depends on them).

Modelling conventions used throughout:
 * `str.split(sep)` is `splitOnChar`, `str.split()` is `splitPyWS`,
   `re.search(r"\d", s).start()` is `firstDigitIdx`.
 * `int(s)` is `pyIntOfDigits`: it succeeds exactly on non-empty all-digit
   strings.  Python's `int` also accepts signs and surrounding whitespace;
   the strings parsed by these scripts are produced by splitting on
   separators, and every theorem below constrains them to digit strings,
   where the two agree.  A failed parse is `PyErr.valueErrorIntLiteral`,
   distinct from the scripts' own `raise ValueError("parse file format
   failure")`, modelled as `PyErr.valueErrorParseFormat`.
 * `"%0Nd" % k` (printf zero-padded decimal) is `pyFmtD N k` built from
   `natRepr` (decimal representation) and `zfill`; `printfInt` interprets
   the `%`-format strings that `get_meta_info` constructs.
-/

/-- Python exception kinds raised by the modelled code paths.
`unboundLocalError` stands for `UnboundLocalError`, the `NameError`
subclass raised when a local variable is read before assignment. -/
inductive PyErr where
  | attributeError
  | valueErrorParseFormat
  | valueErrorIntLiteral
  | valueErrorFloatLiteral
  | indexError
  | zeroDivisionError
  | unboundLocalError
  | nameError
  | typeError
  deriving DecidableEq, Repr

/-- Decidable equality for `Except`, used to evaluate the embedded
functions on concrete inputs. -/
instance instDecEqExcept {ε α : Type} [DecidableEq ε] [DecidableEq α] :
    DecidableEq (Except ε α) := fun x y =>
  match x, y with
  | .ok a, .ok b =>
    if h : a = b then isTrue (by rw [h]) else isFalse (fun he => by cases he; exact h rfl)
  | .error a, .error b =>
    if h : a = b then isTrue (by rw [h]) else isFalse (fun he => by cases he; exact h rfl)
  | .ok _, .error _ => isFalse (fun he => by cases he)
  | .error _, .ok _ => isFalse (fun he => by cases he)

/-- Numeric value of an ASCII digit character. -/
def charToDigit (c : Char) : Nat := c.toNat - 48

/-- ASCII digit character of a value below 10. -/
def digitToChar (d : Nat) : Char := Char.ofNat (48 + d)

/-- Value of a decimal digit string (the semantics of `int` on digits). -/
def digitsToNat (s : List Char) : Nat := s.foldl (fun a c => a * 10 + charToDigit c) 0

/-- Exactly `w` low-order decimal digits of `n`, most significant first. -/
def padded : Nat → Nat → List Char
  | 0, _ => []
  | w + 1, n => padded w (n / 10) ++ [digitToChar (n % 10)]

/-- Fuel-driven digit peeling for `natRepr`; fuel `n` always suffices. -/
def natReprAux : Nat → Nat → List Char
  | 0, _ => []
  | fuel + 1, n => if n = 0 then [] else natReprAux fuel (n / 10) ++ [digitToChar (n % 10)]

/-- Decimal representation of a natural number (the semantics of `str`). -/
def natRepr (n : Nat) : List Char := if n = 0 then ['0'] else natReprAux n n

/-- Left pad with zeros to width `w` (the semantics of `str.zfill` on an
unsigned string, and of printf zero padding). -/
def zfill (w : Nat) (s : List Char) : List Char := List.replicate (w - s.length) '0' ++ s

/-- Python `str.split(sep)` for a one-character separator. -/
def splitOnChar (sep : Char) : List Char → List (List Char)
  | [] => [[]]
  | c :: cs =>
    match splitOnChar sep cs with
    | [] => [[]]
    | r :: rs => if c = sep then [] :: r :: rs else (c :: r) :: rs

/-- Index of the first decimal digit, the semantics of
`re.search(r"\d", s)`: `none` models a failed search (`None`). -/
def firstDigitIdx : List Char → Option Nat
  | [] => none
  | c :: cs => if c.isDigit then some 0 else (firstDigitIdx cs).map (· + 1)

/-- Python `int(s)` restricted to the digit strings these scripts parse;
anything else raises `ValueError` (here `valueErrorIntLiteral`). -/
def pyIntOfDigits (s : List Char) : Except PyErr ℤ :=
  if !s.isEmpty && s.all (·.isDigit) then .ok (digitsToNat s : ℤ)
  else .error .valueErrorIntLiteral

/-- Result of `"%0wd" % n`: decimal representation zero-padded to width `w`
(the sign, when present, counts toward the width, as in printf). -/
def pyFmtD (w : Nat) (n : ℤ) : List Char :=
  if n < 0 then '-' :: zfill (w - 1) (natRepr (-n).toNat) else zfill w (natRepr n.toNat)

/-- Interpreter for the `%`-format strings built by `get_meta_info`:
literal characters plus `%0<digits>d` directives.  The accumulator holds
`some w` while the width of a directive is being read. -/
def printfGo : List Char → Option Nat → List ℤ → List Char
  | [], _, _ => []
  | c :: rest, none, args =>
    if c = '%' then printfGo rest (some 0) args else c :: printfGo rest none args
  | c :: rest, some w, args =>
    if c.isDigit then printfGo rest (some (w * 10 + charToDigit c)) args
    else if c = 'd' then
      match args with
      | a :: args2 => pyFmtD w a ++ printfGo rest none args2
      | [] => []
    else c :: printfGo rest none args

/-- Python `fmt % args` for the formats generated by `get_meta_info`. -/
def printfInt (fmt : List Char) (args : List ℤ) : List Char := printfGo fmt none args

namespace AssembleClothes

/-- Return value of `get_meta_info` (src/assemble_clothes.py). -/
structure MetaInfo where
  start_frame : ℤ
  end_frame : ℤ
  parts : ℤ
  format : List Char
  deriving DecidableEq, Repr

/-- Body of `get_meta_info`'s per-file loop (src/assemble_clothes.py,
lines 238-258): split on `_`, locate the first digit (raising
`AttributeError` when `re.search` returns `None`), then branch on the
number of `_`-separated segments, raising the script's own
`ValueError("parse file format failure")` for three or more.  Returns
`(frame, part, format)` as pushed into the loop state. -/
def process_file (file : List Char) : Except PyErr (ℤ × ℤ × List Char) :=
  let ret := splitOnChar '_' file
  match firstDigitIdx file with
  | none => .error .attributeError
  | some idx =>
    let pre := file.take idx
    match ret with
    | [a, b] =>
      let frame_str := a.drop idx
      let part_str := (splitOnChar '.' b).headD []
      match pyIntOfDigits frame_str with
      | .error err => .error err
      | .ok frame =>
        match pyIntOfDigits part_str with
        | .error err => .error err
        | .ok p =>
          .ok (frame, p + 1,
            pre ++ "%0".data ++ natRepr frame_str.length ++ "d_%0".data
              ++ natRepr part_str.length ++ "d.obj".data)
    | [_] =>
      let frame_str := ((splitOnChar '.' file).headD []).drop idx
      match pyIntOfDigits frame_str with
      | .error err => .error err
      | .ok frame =>
        .ok (frame, 0, pre ++ "%0".data ++ natRepr frame_str.length ++ "d.obj".data)
    | _ => .error .valueErrorParseFormat

/-- State-threading loop of `get_meta_info` over the directory's files:
state is `(start_frame, end_frame, parts, format)`, with `format = none`
while the local variable is still unassigned. -/
def get_meta_info_loop :
    List (List Char) → ℤ × ℤ × ℤ × Option (List Char) →
      Except PyErr (ℤ × ℤ × ℤ × Option (List Char))
  | [], st => .ok st
  | f :: fs, (s, e, p, _fmt) =>
    match process_file f with
    | .error err => .error err
    | .ok (frame, part, fmtf) =>
      get_meta_info_loop fs (min s frame, max e frame, max p part, some fmtf)

/-- The function `get_meta_info` (src/assemble_clothes.py, lines 215-265)
applied to the list of filenames `os.walk` yields. Initial sentinels are
`start_frame = 9999999`, `end_frame = -9999999`, `parts = 0`; reading the
never-assigned `format` on an empty directory raises `UnboundLocalError`
(a `NameError`). -/
def get_meta_info (files : List (List Char)) : Except PyErr MetaInfo :=
  match get_meta_info_loop files (9999999, -9999999, 0, none) with
  | .error err => .error err
  | .ok (s, e, p, some fmt) => .ok ⟨s, e, p, fmt⟩
  | .ok (_, _, _, none) => .error .unboundLocalError

/-- Filename following the documented convention
`[prefix_str][frame_number][_][part_number].obj`: `sp.1` is the frame
digit string, `sp.2` the part digit string (ignored when `withPart` is
`false`, the `[prefix][frame].obj` form). -/
def conventionName (pre : List Char) (withPart : Bool)
    (sp : List Char × List Char) : List Char :=
  if withPart then pre ++ sp.1 ++ '_' :: (sp.2 ++ ".obj".data) else pre ++ sp.1 ++ ".obj".data

/-- The printf-style pattern the claim says `get_meta_info` returns:
`prefix + %0Nd + _ + %0Md + .obj`, respectively `prefix + %0Nd + .obj`. -/
def conventionFormat (pre : List Char) (withPart : Bool) (N M : Nat) :
    List Char :=
  if withPart then
    pre ++ "%0".data ++ natRepr N ++ "d_%0".data ++ natRepr M ++ "d.obj".data
  else pre ++ "%0".data ++ natRepr N ++ "d.obj".data

/-- Frame number a successfully parsed file contributes to the loop state
(0 for a failing file; used only where `process_file` succeeds). -/
def frameOf (f : List Char) : ℤ :=
  match process_file f with
  | .ok (fr, _, _) => fr
  | .error _ => 0

/-- Part value a successfully parsed file contributes to the loop state
(0 for a failing file; used only where `process_file` succeeds). -/
def partOf (f : List Char) : ℤ :=
  match process_file f with
  | .ok (_, p, _) => p
  | .error _ => 0

end AssembleClothes

namespace SeperateObjSequence

/-- Root of `os.path.splitext`: everything before the last dot (the whole
name when there is no dot). -/
def splitext_root (s : List Char) : List Char :=
  let extLen := (s.reverse.takeWhile (fun c => c ≠ '.')).length
  if extLen = s.length then s else s.take (s.length - extLen - 1)

/-- Output filename built by `seperate_obj`
(src/mesh_processing/seperate_obj_sequence.py, line 34):
`os.path.splitext(os.path.basename(p))[0] + str(index).zfill(padding) + ".obj"`,
with the basename passed in as `input_name`. -/
def seperate_obj_output_filename (input_name : List Char) (index : Nat) (padding : Nat) :
    List Char :=
  splitext_root input_name ++ zfill padding (natRepr index) ++ ".obj".data

end SeperateObjSequence

namespace AssembleScenes

/-- Pairwise common-prefix loop of assemble_scenes.py (lines 392-399 and
425-432): walk both strings from index 0, keep while equal, stop at the
first mismatch. -/
def lcp : List Char → List Char → List Char
  | a :: as, b :: bs => if a = b then a :: lcp as bs else []
  | _, _ => []

/-- Pairwise common-suffix loop (lines 401-407 and 434-440): the source
walks both strings from the ends via negative indices, prepending while
equal; that is the reverse of `lcp` on the reversed strings. -/
def lcs (a b : List Char) : List Char := (lcp a.reverse b.reverse).reverse

/-- Fold of the common-prefix loop over a directory listing, seeded with
`filenames[0]` (which the loop then also compares against itself). -/
def commonPre (filenames : List (List Char)) : List Char :=
  filenames.foldl lcp (filenames.headD [])

/-- Fold of the common-suffix loop over a directory listing. -/
def commonSuf (filenames : List (List Char)) : List Char :=
  filenames.foldl lcs (filenames.headD [])

/-- Python slice `name[preLen : -sufLen]` as used in
`int(name[len(prefix) : -len(suffix)])`: when `sufLen = 0` the slice end
is 0 and the result is empty, otherwise characters from `preLen` up to
`len(name) - sufLen`. -/
def middleOf (preLen sufLen : Nat) (name : List Char) : List Char :=
  if sufLen = 0 then [] else (name.take (name.length - sufLen)).drop preLen

/-- The startFrame/endFrame accumulation loop (lines 412-415 and 445-448):
parse each filename's stripped middle with `int` and fold `min`/`max`. -/
def frameFold (preLen sufLen : Nat) : List (List Char) → ℤ × ℤ → Except PyErr (ℤ × ℤ)
  | [], st => .ok st
  | name :: rest, (s, e) =>
    match pyIntOfDigits (middleOf preLen sufLen name) with
    | .error err => .error err
    | .ok frame => frameFold preLen sufLen rest (min s frame, max e frame)

/-- One directory's worth of the `__main__` inference in
src/scene_assembly/background/assemble_scenes.py (lines 384-448): infer
the common prefix and suffix of the listing, then fold the parsed frame
numbers into the running `startFrame`/`endFrame` (initialised by the
caller; the script uses `100000000` and `-1`). -/
def inferDirMeta (filenames : List (List Char)) (startF endF : ℤ) :
    Except PyErr (List Char × List Char × ℤ × ℤ) :=
  let pre := commonPre filenames
  let suf := commonSuf filenames
  match frameFold pre.length suf.length filenames (startF, endF) with
  | .error err => .error err
  | .ok (s, e) => .ok (pre, suf, s, e)

/-- Frame numbers the script parses from a listing: each filename's
middle (common prefix and suffix stripped) read as a decimal. -/
def framesOf (filenames : List (List Char)) : List ℤ :=
  filenames.map (fun n =>
    (digitsToNat (middleOf (commonPre filenames).length (commonSuf filenames).length n) : ℤ))

end AssembleScenes

/-- Path concatenation, the semantics of `os.path.join(a, b)` for plain
relative components. -/
def pathJoin (a b : List Char) : List Char := a ++ '/' :: b

namespace ImageSequenceToVideo

/-- Shape of a decoded image: `img.shape` is `(height, width, channels)`,
so the script's `resolution = (shape[1], shape[0])` is `(width, height)`. -/
structure Image where
  height : Nat
  width : Nat
  deriving DecidableEq, Repr

/-- State of the `cv2.VideoWriter` built by the script: constructor
arguments plus the frames written so far. -/
structure Writer where
  fps : Nat
  resolution : Nat × Nat
  frames : List Image
  deriving DecidableEq, Repr

/-- Per-file body of the loop in src/rendering/image_sequence_to_video.py
(lines 30-37): on the first file, read the image at `join(base, f)` for
its shape (`None.shape` raises `AttributeError` when the read fails) and
create the writer with fps 30 and resolution `(width, height)`; then read
the file again (the source calls `cv2.imread` twice for the first file)
and write one frame per file; writing a failed read (`None`) raises. -/
def writeFrames (imread : List Char → Option Image) (base : List Char) :
    List (List Char) → Option Writer → Except PyErr (Option Writer)
  | [], w => .ok w
  | f :: fs, none =>
    match imread (pathJoin base f) with
    | none => .error .attributeError
    | some img =>
      match imread (pathJoin base f) with
      | none => .error .typeError
      | some frame =>
        writeFrames imread base fs (some ⟨30, (img.width, img.height), [frame]⟩)
  | f :: fs, some wr =>
    match imread (pathJoin base f) with
    | none => .error .typeError
    | some frame =>
      writeFrames imread base fs (some ⟨wr.fps, wr.resolution, wr.frames ++ [frame]⟩)

/-- Outer `os.walk` loop (line 28): the walk's directory component is
never used — files from every entry are read relative to `base`. -/
def videoLoop (imread : List Char → Option Image) (base : List Char) :
    List (List Char × List (List Char)) → Option Writer → Except PyErr (Option Writer)
  | [], w => .ok w
  | (_root, fs) :: rest, w =>
    match writeFrames imread base fs w with
    | .error err => .error err
    | .ok w2 => videoLoop imread base rest w2

/-- The whole `__main__` of the image-sequence-to-video script: run the
walk loop from `videoWriter = None`; the final `videoWriter.release()`
raises `AttributeError` when no file was ever written. -/
def videoScript (imread : List Char → Option Image) (base : List Char)
    (walk : List (List Char × List (List Char))) : Except PyErr Writer :=
  match videoLoop imread base walk none with
  | .error err => .error err
  | .ok none => .error .attributeError
  | .ok (some w) => .ok w

/-- Concrete two-image directory used to evaluate the video-script model
on an input: both images decode as 640x480. -/
def demoRead : List Char → Option Image := fun p =>
  if p = "imgs/a.png".data then some ⟨480, 640⟩
  else if p = "imgs/b.png".data then some ⟨480, 640⟩
  else none

end ImageSequenceToVideo

namespace SaveObjSequence

/-- Python `range(a, b)` over ints, as a list. -/
def intRangeZ (a b : ℤ) : List ℤ :=
  (List.range (b - a).toNat).map (fun (k : Nat) => a + (k : ℤ))

/-- OBJ export options string built in save_objs
(src/mesh_processing/save_obj_sequence.py, lines 70-74); in the
non-compress branch the source replaces, not appends, so the groups
settings are dropped there. -/
def exportOptions (compress : Bool) : List Char :=
  if compress then "groups=1;ptgroups=1;materials=0;smooting=0;normals=0;".data
  else "materials=1;smooting=1;normals=1".data

/-- Inner `for i in range(save_per_frame)` loop body of `save_objs`
(lines 65-86): each iteration sets the current time to
`frame + i / save_pre_frame` (true division; `ZeroDivisionError` when the
parameter is 0), builds `output_prefix + str(index).zfill(digits) + ".obj"`
from the global running `index`, exports, and increments `index`.
Returns the `(time, path, options)` records and the final index. -/
def innerLoop (output_dir out_pre : List Char) (digits : Nat) (p : ℤ) (compress : Bool)
    (frame : ℤ) : List Nat → Nat → Except PyErr (List (ℚ × List Char × List Char) × Nat)
  | [], index => .ok ([], index)
  | i :: is, index =>
    if p = 0 then .error .zeroDivisionError
    else
      match innerLoop output_dir out_pre digits p compress frame is (index + 1) with
      | .error err => .error err
      | .ok (ws, idx2) =>
        .ok (((frame : ℚ) + (i : ℚ) / (p : ℚ),
          pathJoin output_dir (out_pre ++ zfill digits (natRepr index) ++ ".obj".data),
          exportOptions compress) :: ws, idx2)

/-- Outer `for frame in range(start_frame, end_frame + 1)` loop of
`save_objs` (lines 64-84).  Evaluating `range(save_per_frame)` reads the
module-level global `save_per_frame` (the parameter is the misspelt
`save_pre_frame`): when the global is undefined this raises `NameError`. -/
def outerLoop (output_dir out_pre : List Char) (digits : Nat) (p : ℤ) (compress : Bool)
    (save_per_frame? : Option Nat) :
    List ℤ → Nat → Except PyErr (List (ℚ × List Char × List Char))
  | [], _ => .ok []
  | frame :: rest, index =>
    match save_per_frame? with
    | none => .error .nameError
    | some g =>
      match innerLoop output_dir out_pre digits p compress frame (List.range g) index with
      | .error err => .error err
      | .ok (ws, idx2) =>
        match outerLoop output_dir out_pre digits p compress save_per_frame? rest idx2 with
        | .error err => .error err
        | .ok ws2 => .ok (ws ++ ws2)

/-- The function `save_objs` (src/mesh_processing/save_obj_sequence.py,
lines 40-86), with the module global `save_per_frame` passed explicitly
as `save_per_frame?` (`none` models the global being undefined). -/
def save_objs (output_dir out_pre : List Char) (digits : Nat)
    (start_frame end_frame : ℤ) (save_pre_frame : ℤ) (compress : Bool)
    (save_per_frame? : Option Nat) : Except PyErr (List (ℚ × List Char × List Char)) :=
  outerLoop output_dir out_pre digits save_pre_frame compress save_per_frame?
    (intRangeZ start_frame (end_frame + 1)) 0

end SaveObjSequence

namespace BackgroundRender

/-- Observable actions of the `__main__` fan-out in
src/rendering/background_render.py: starting the thread for task `i`
(whose body runs the single render command `cmd`), sleeping, and joining
thread `i`.  No other synchronisation action exists in the script. -/
inductive Event where
  | started (i : Nat) (cmd : List Char)
  | slept (secs : Nat)
  | joined (i : Nat)
  deriving DecidableEq, Repr

/-- Python `list(range(a, b))`. -/
def intRange (a b : Nat) : List Nat := (List.range (b - a)).map (fun (k : Nat) => a + k)

/-- The `subarrays` batches (lines 69-72): for `i in range(0, n, N)` the
chunk `list(range(i, min(i + N, n)))`; `range` with step `N` visits
`k * N` for `k < ceil(n / N)`. -/
def subarrays (n N : Nat) : List (List Nat) :=
  (List.range ((n + N - 1) / N)).map
    (fun (k : Nat) => intRange (k * N) (min (k * N + N) n))

/-- Render command built per scene file (lines 76-86): the `%s`/`%d`
interpolation written out as concatenation (`renderer` is unused in the
source, `arnold` being hard-coded in the literal). -/
def mkCmd (exe target : List Char) (namingConvention : Nat) (imageFormat : List Char)
    (renderSetting camera : Option (List Char)) (base f : List Char) : List Char :=
  exe ++ " -s 1 -e 1 -r arnold -rd ".data ++ target ++ " -im ".data
    ++ (splitOnChar '.' f).headD []
    ++ " -fnc ".data ++ natRepr namingConvention ++ " -of ".data ++ imageFormat
    ++ (match renderSetting with
        | some rsp => " -rsp ".data ++ rsp
        | none => [])
    ++ (match camera with
        | some cm => " -cam ".data ++ cm
        | none => [])
    ++ " ".data ++ pathJoin base f

/-- The batch loop (lines 95-104): for each batch, start one thread per
index and sleep one second after each start; then join every thread in
the accumulated `threads` list (which is never reset, so earlier batches
are re-joined — a no-op on finished threads). -/
def renderLoop (cmds : List (List Char)) : List (List Nat) → List Nat → List Event
  | [], _ => []
  | arr :: rest, threads =>
    (arr.map (fun i => [Event.started i (cmds.getD i []), Event.slept 1])).flatten
      ++ ((threads ++ arr).map Event.joined)
      ++ renderLoop cmds rest (threads ++ arr)

/-- Event trace of the whole fan-out for one walk entry's file list. -/
def renderTrace (fs : List (List Char)) (N : Nat) (exe target : List Char)
    (nc : Nat) (imageFormat : List Char) (rsp cm : Option (List Char))
    (base : List Char) : List Event :=
  renderLoop (fs.map (mkCmd exe target nc imageFormat rsp cm base))
    (subarrays fs.length N) []

end BackgroundRender

-- ---------- OBJ vertex rewriting (simplify_obj_sequence.py, resume_obj.py) ----------

/-- Python `str.split()` whitespace test (space, tab, linefeed, carriage
return, vertical tab, form feed). -/
def isPySpace (c : Char) : Bool :=
  c == ' ' || c == '\t' || c == '\n' || c == '\r' || c == '\x0b' || c == '\x0c'

/-- Accumulator loop of `splitPyWS`; `acc` is the current chunk reversed. -/
def splitPyWSAux : List Char → List Char → List (List Char)
  | [], acc => if acc.isEmpty then [] else [acc.reverse]
  | c :: rest, acc =>
    if isPySpace c then
      if acc.isEmpty then splitPyWSAux rest []
      else acc.reverse :: splitPyWSAux rest []
    else splitPyWSAux rest (c :: acc)

/-- Python `str.split()` with no argument: split on runs of whitespace,
dropping empty chunks. -/
def splitPyWS (s : List Char) : List (List Char) := splitPyWSAux s []

/-- Python `str.startswith` on the line model. -/
def startsWith : List Char → List Char → Bool
  | [], _ => true
  | _ :: _, [] => false
  | a :: ps, b :: ss => a == b && startsWith ps ss

/-- Python `l[i]` for a non-negative index: `IndexError` past the end. -/
def getItem {α : Type} (l : List α) (i : Nat) : Except PyErr α :=
  match l[i]? with
  | some a => .ok a
  | none => .error .indexError

/-- A Python float, modelled as the exact decimal fraction
`num / 10 ^ exp` (see the file header). -/
structure Dec where
  num : ℤ
  exp : Nat
  deriving DecidableEq, Repr

/-- Rational value of a `Dec`; used only in proofs, never by the
embedded code. -/
def Dec.val (d : Dec) : ℚ := (d.num : ℚ) / 10 ^ d.exp

/-- Float negation. -/
def Dec.neg (d : Dec) : Dec := ⟨-d.num, d.exp⟩

/-- Float multiplication (exact in the decimal model). -/
def Dec.mul (a b : Dec) : Dec := ⟨a.num * b.num, a.exp + b.exp⟩

/-- Python `scale != 1.0` negated: value-level comparison with `1.0`. -/
def Dec.isOne (d : Dec) : Bool := d.num == 10 ^ d.exp

/-- Python float `==` (value-level equality, denominators cleared). -/
def Dec.eqv (a b : Dec) : Bool := a.num * 10 ^ b.exp == b.num * 10 ^ a.exp

/-- Exponent clause of a float literal, the `e`/`E` already consumed;
`m` and `e0` are the mantissa and fractional length parsed so far. -/
def pyFloatExp (m : ℤ) (e0 : Nat) (r : List Char) : Except PyErr Dec :=
  let (eneg, r1) :=
    match r with
    | '-' :: t => (true, t)
    | '+' :: t => (false, t)
    | _ => (false, r)
  let ed := r1.takeWhile Char.isDigit
  let rest := r1.dropWhile Char.isDigit
  if ed.isEmpty then .error .valueErrorFloatLiteral
  else if rest.isEmpty then
    if eneg then .ok ⟨m, e0 + digitsToNat ed⟩
    else .ok ⟨m * 10 ^ digitsToNat ed, e0⟩
  else .error .valueErrorFloatLiteral

/-- Python `float(s)` on the decimal literals these scripts exchange:
optional sign, digits with an optional point, optional exponent.
(`inf`, `nan`, underscores and surrounding whitespace never occur in the
scripts' data and are not modelled.)  Failure is `ValueError`. -/
def pyFloat (s : List Char) : Except PyErr Dec :=
  let (sgn, s1) :=
    match s with
    | '-' :: r => ((-1 : ℤ), r)
    | '+' :: r => ((1 : ℤ), r)
    | _ => ((1 : ℤ), s)
  let ip := s1.takeWhile Char.isDigit
  let s2 := s1.dropWhile Char.isDigit
  let (fp, s3) :=
    match s2 with
    | '.' :: r => (r.takeWhile Char.isDigit, r.dropWhile Char.isDigit)
    | _ => ([], s2)
  if ip.isEmpty && fp.isEmpty then .error .valueErrorFloatLiteral
  else
    match s3 with
    | [] => .ok ⟨sgn * (digitsToNat (ip ++ fp) : ℤ), fp.length⟩
    | 'e' :: r => pyFloatExp (sgn * (digitsToNat (ip ++ fp) : ℤ)) fp.length r
    | 'E' :: r => pyFloatExp (sgn * (digitsToNat (ip ++ fp) : ℤ)) fp.length r
    | _ => .error .valueErrorFloatLiteral

/-- Round `n / d` (for `d > 0`) to the nearest integer, ties to even:
the rounding of C `printf` on the decimal model. -/
def roundHalfEven (n d : ℤ) : ℤ :=
  let q := n / d
  let r := n % d
  if 2 * r < d then q
  else if d < 2 * r then q + 1
  else if q % 2 = 0 then q else q + 1

/-- `"%f"` of a non-negative `Dec`: integer digits, a point, six
fractional digits of the rounded value. -/
def fmtAbs6 (v : Dec) : List Char :=
  let N := (roundHalfEven (v.num * 10 ^ 6) ((10 : ℤ) ^ v.exp)).toNat
  natRepr (N / 10 ^ 6) ++ '.' :: padded 6 (N % 10 ^ 6)

/-- `"%f" % v` (six fractional digits, `-` carried from the sign of the
mantissa, as `printf` keeps the sign of a negative zero). -/
def fmtFixed6 (v : Dec) : List Char :=
  if v.num < 0 then '-' :: fmtAbs6 ⟨-v.num, v.exp⟩ else fmtAbs6 v

/-- The float-parsing half shared by both vertex branches
(`results = line[2: ].split()` then
`float(results[0]), float(results[1]), float(results[2])`). -/
def vertexParse (line : List Char) : Except PyErr (Dec × Dec × Dec) :=
  match getItem (splitPyWS (line.drop 2)) 0 with
  | .error e => .error e
  | .ok r0 =>
    match pyFloat r0 with
    | .error e => .error e
    | .ok x =>
      match getItem (splitPyWS (line.drop 2)) 1 with
      | .error e => .error e
      | .ok r1 =>
        match pyFloat r1 with
        | .error e => .error e
        | .ok y =>
          match getItem (splitPyWS (line.drop 2)) 2 with
          | .error e => .error e
          | .ok r2 =>
            match pyFloat r2 with
            | .error e => .error e
            | .ok z => .ok (x, y, z)

/-- The up-axis change both scripts guard behind their flag:
`x, y, z = -x, z, y`. -/
def chgMap (p : Dec × Dec × Dec) : Dec × Dec × Dec := (Dec.neg p.1, p.2.2, p.2.1)

/-- The scaling step `x, y, z = scale * x, scale * y, scale * z`. -/
def scaleMap (s : Dec) (p : Dec × Dec × Dec) : Dec × Dec × Dec :=
  (Dec.mul s p.1, Dec.mul s p.2.1, Dec.mul s p.2.2)

/-- Both optional steps in source order: the axis change if the flag is
set, then the scaling unless `scale == 1.0`. -/
def applyOps (change : Bool) (scale : Dec) (p : Dec × Dec × Dec) : Dec × Dec × Dec :=
  let p1 := if change then chgMap p else p
  if Dec.isOne scale then p1 else scaleMap scale p1

/-- `"v %f %f %f\n" % (x, y, z)`. -/
def vertexOut (p : Dec × Dec × Dec) : List Char :=
  "v ".data ++ fmtFixed6 p.1 ++ ' ' :: fmtFixed6 p.2.1 ++ ' ' :: fmtFixed6 p.2.2 ++ ['\n']

namespace SimplifyObjSequence

/-- The `line.startswith("v ")` branch of `process_obj` in
src/mesh_processing/simplify_obj_sequence.py (lines 30-37): parse three
floats from the split line, apply the guarded axis change and scaling,
print `"v %f %f %f\n"`. -/
def vertexBranch (change : Bool) (scale : Dec) (line : List Char) :
    Except PyErr (List Char) :=
  match vertexParse line with
  | .error e => .error e
  | .ok (x, y, z) =>
    let p1 := if change then (Dec.neg x, z, y) else (x, y, z)
    let p2 := if Dec.isOne scale then p1
      else (Dec.mul scale p1.1, Dec.mul scale p1.2.1, Dec.mul scale p1.2.2)
    .ok ("v ".data ++ fmtFixed6 p2.1 ++ ' ' :: fmtFixed6 p2.2.1 ++ ' ' :: fmtFixed6 p2.2.2
      ++ ['\n'])

/-- The compressed face line (lines 39-44): `"f"`, then for each
whitespace-separated element a space and `element.split("/")[0]`. -/
def faceCompress (line : List Char) : List Char :=
  'f' :: ((splitPyWS (line.drop 2)).map
    (fun (r : List Char) => ' ' :: (splitOnChar '/' r).headD [])).flatten ++ ['\n']

/-- One `while` iteration of `process_obj` (lines 28-46).  The `"v "`
and `"f "` tests are two independent `if`s in the source (never both
true for distinct first characters, but kept literal); an exception in
the vertex branch aborts before the face test. -/
def processLine (compress change_up_direction : Bool) (scale : Dec)
    (line : List Char) : Except PyErr (List (List Char)) :=
  match ((if startsWith "v ".data line then
      match vertexBranch change_up_direction scale line with
      | Except.error e => Except.error e
      | Except.ok v => Except.ok [v]
    else Except.ok []) : Except PyErr (List (List Char))) with
  | .error e => .error e
  | .ok vs =>
    .ok (vs ++ (if startsWith "f ".data line then
        if compress then [faceCompress line] else [line]
      else ([] : List (List Char))))

/-- `process_obj` of src/mesh_processing/simplify_obj_sequence.py over
the file's lines (each element one `readline` result). -/
def process_obj (compress change_up_direction : Bool) (scale : Dec) :
    List (List Char) → Except PyErr (List (List Char))
  | [] => .ok []
  | line :: rest =>
    match processLine compress change_up_direction scale line with
    | .error e => .error e
    | .ok h =>
      match process_obj compress change_up_direction scale rest with
      | .error e => .error e
      | .ok t => .ok (h ++ t)

end SimplifyObjSequence

namespace ResumeObj

/-- The `line.startswith("v ")` branch of `process_obj` in
src/resume_obj.py (lines 26-33); the source text is identical to the
simplify script's vertex branch, with the flag named `change_yz`. -/
def vertexBranch (change : Bool) (scale : Dec) (line : List Char) :
    Except PyErr (List Char) :=
  match vertexParse line with
  | .error e => .error e
  | .ok (x, y, z) =>
    let p1 := if change then (Dec.neg x, z, y) else (x, y, z)
    let p2 := if Dec.isOne scale then p1
      else (Dec.mul scale p1.1, Dec.mul scale p1.2.1, Dec.mul scale p1.2.2)
    .ok ("v ".data ++ fmtFixed6 p2.1 ++ ' ' :: fmtFixed6 p2.2.1 ++ ' ' :: fmtFixed6 p2.2.2
      ++ ['\n'])

/-- One `while` iteration of `process_obj` in src/resume_obj.py
(lines 24-35): vertex lines are rewritten, every other line is kept. -/
def processLine (change_yz : Bool) (scale : Dec) (line : List Char) :
    Except PyErr (List (List Char)) :=
  if startsWith "v ".data line then
    match vertexBranch change_yz scale line with
    | .error e => .error e
    | .ok v => .ok [v]
  else .ok [line]

/-- `process_obj` of src/resume_obj.py over the file's lines. -/
def process_obj (change_yz : Bool) (scale : Dec) :
    List (List Char) → Except PyErr (List (List Char))
  | [] => .ok []
  | line :: rest =>
    match processLine change_yz scale line with
    | .error e => .error e
    | .ok h =>
      match process_obj change_yz scale rest with
      | .error e => .error e
      | .ok t => .ok (h ++ t)

end ResumeObj

-- ===================== THEOREMS =====================

theorem isDigit_bounds (c : Char) (h : c.isDigit = true) : 48 ≤ c.toNat ∧ c.toNat ≤ 57 := by
  simp [Char.isDigit] at h
  exact h

theorem charToDigit_lt (c : Char) (h : c.isDigit = true) : charToDigit c < 10 := by
  obtain ⟨h1, h2⟩ := isDigit_bounds c h
  unfold charToDigit
  omega

theorem digitToChar_charToDigit (c : Char) (h : c.isDigit = true) :
    digitToChar (charToDigit c) = c := by
  obtain ⟨h1, h2⟩ := isDigit_bounds c h
  unfold digitToChar charToDigit
  have : 48 + (c.toNat - 48) = c.toNat := by omega
  rw [this, Char.ofNat_toNat]

theorem digitToChar_isDigit (d : Nat) (h : d < 10) : (digitToChar d).isDigit = true := by
  unfold digitToChar
  interval_cases d <;> decide

theorem charToDigit_digitToChar (d : Nat) (h : d < 10) : charToDigit (digitToChar d) = d := by
  unfold digitToChar charToDigit
  interval_cases d <;> decide

theorem isDigit_ne_underscore (c : Char) (h : c.isDigit = true) : c ≠ '_' := by
  rintro rfl
  exact absurd h (by decide)

theorem isDigit_ne_dot (c : Char) (h : c.isDigit = true) : c ≠ '.' := by
  rintro rfl
  exact absurd h (by decide)

theorem digitsToNat_append_singleton (s : List Char) (c : Char) :
    digitsToNat (s ++ [c]) = digitsToNat s * 10 + charToDigit c := by
  simp [digitsToNat, List.foldl_append]

theorem digitsToNat_lt (s : List Char) (h : ∀ c ∈ s, c.isDigit = true) :
    digitsToNat s < 10 ^ s.length := by
  induction s using List.reverseRecOn with
  | nil => simp [digitsToNat]
  | append_singleton t c ih =>
    have hc : charToDigit c < 10 := charToDigit_lt c (h c (by simp))
    have ht : digitsToNat t < 10 ^ t.length := ih (fun x hx => h x (by simp [hx]))
    rw [digitsToNat_append_singleton]
    simp only [List.length_append, List.length_cons, List.length_nil]
    have : 10 ^ (t.length + 1) = 10 ^ t.length * 10 := by ring
    rw [this]
    omega

theorem padded_zero (w : Nat) : padded w 0 = List.replicate w '0' := by
  induction w with
  | zero => rfl
  | succ w ih =>
    show padded w (0 / 10) ++ [digitToChar (0 % 10)] = _
    rw [Nat.zero_div, ih, List.replicate_succ' w '0']
    rfl

theorem padded_length (w n : Nat) : (padded w n).length = w := by
  induction w generalizing n with
  | zero => rfl
  | succ w ih => simp [padded, ih]

theorem padded_all_digits (w n : Nat) : ∀ c ∈ padded w n, c.isDigit = true := by
  induction w generalizing n with
  | zero => simp [padded]
  | succ w ih =>
    intro c hc
    simp only [padded, List.mem_append, List.mem_singleton] at hc
    rcases hc with hc | rfl
    · exact ih _ c hc
    · exact digitToChar_isDigit _ (Nat.mod_lt _ (by norm_num))

theorem digitsToNat_padded (w n : Nat) (h : n < 10 ^ w) : digitsToNat (padded w n) = n := by
  induction w generalizing n with
  | zero =>
    simp [padded, digitsToNat]
    omega
  | succ w ih =>
    have hdiv : n / 10 < 10 ^ w := by
      rw [Nat.div_lt_iff_lt_mul (by norm_num)]
      calc n < 10 ^ (w + 1) := h
        _ = 10 ^ w * 10 := by ring
    show digitsToNat (padded w (n / 10) ++ [digitToChar (n % 10)]) = n
    rw [digitsToNat_append_singleton, ih _ hdiv,
      charToDigit_digitToChar _ (Nat.mod_lt _ (by norm_num))]
    omega

theorem padded_digitsToNat (s : List Char) (h : ∀ c ∈ s, c.isDigit = true) :
    ∀ w, s.length ≤ w →
      padded w (digitsToNat s) = List.replicate (w - s.length) '0' ++ s := by
  induction s using List.reverseRecOn with
  | nil =>
    intro w _
    simp [digitsToNat, padded_zero]
  | append_singleton t c ih =>
    intro w hw
    simp only [List.length_append, List.length_cons, List.length_nil] at hw
    obtain ⟨w', rfl⟩ : ∃ w', w = w' + 1 := ⟨w - 1, by omega⟩
    have hc : charToDigit c < 10 := charToDigit_lt c (h c (by simp))
    have hdiv : (digitsToNat t * 10 + charToDigit c) / 10 = digitsToNat t := by omega
    have hmod : (digitsToNat t * 10 + charToDigit c) % 10 = charToDigit c := by omega
    show padded w' ((digitsToNat (t ++ [c])) / 10)
        ++ [digitToChar ((digitsToNat (t ++ [c])) % 10)] = _
    rw [digitsToNat_append_singleton, hdiv, hmod,
      digitToChar_charToDigit c (h c (by simp)),
      ih (fun x hx => h x (by simp [hx])) w' (by omega)]
    simp only [List.length_append, List.length_cons, List.length_nil, List.append_assoc]
    have : w' + 1 - (t.length + 1) = w' - t.length := by omega
    rw [this]

theorem natReprAux_zero (fuel : Nat) : natReprAux fuel 0 = [] := by
  cases fuel <;> rfl

theorem natReprAux_props (fuel : Nat) :
    ∀ n, 0 < n → n ≤ fuel →
      (∀ c ∈ natReprAux fuel n, c.isDigit = true) ∧
        digitsToNat (natReprAux fuel n) = n ∧ natReprAux fuel n ≠ [] := by
  induction fuel with
  | zero => intro n h1 h2; omega
  | succ fuel ih =>
    intro n h1 h2
    have hne : ¬n = 0 := by omega
    have hmod : n % 10 < 10 := Nat.mod_lt _ (by norm_num)
    have heq : natReprAux (fuel + 1) n = natReprAux fuel (n / 10) ++ [digitToChar (n % 10)] := by
      rw [natReprAux, if_neg hne]
    rw [heq]
    by_cases hq : n / 10 = 0
    · rw [hq, natReprAux_zero]
      refine ⟨?_, ?_, by simp⟩
      · intro c hc
        simp only [List.nil_append, List.mem_singleton] at hc
        subst hc
        exact digitToChar_isDigit _ hmod
      · show digitsToNat ([] ++ [digitToChar (n % 10)]) = n
        rw [digitsToNat_append_singleton, charToDigit_digitToChar _ hmod]
        simp [digitsToNat]
        omega
    · have hlt : n / 10 ≤ fuel := by
        have := Nat.div_lt_self h1 (by norm_num : (1:Nat) < 10)
        omega
      obtain ⟨ihd, ihv, _⟩ := ih (n / 10) (Nat.pos_of_ne_zero hq) hlt
      refine ⟨?_, ?_, by simp⟩
      · intro c hc
        simp only [List.mem_append, List.mem_singleton] at hc
        rcases hc with hc | rfl
        · exact ihd c hc
        · exact digitToChar_isDigit _ hmod
      · rw [digitsToNat_append_singleton, ihv, charToDigit_digitToChar _ hmod]
        omega

theorem natRepr_all_digits (n : Nat) : ∀ c ∈ natRepr n, c.isDigit = true := by
  unfold natRepr
  by_cases h : n = 0
  · simp [h]
  · rw [if_neg h]
    exact (natReprAux_props n n (Nat.pos_of_ne_zero h) le_rfl).1

theorem digitsToNat_natRepr (n : Nat) : digitsToNat (natRepr n) = n := by
  unfold natRepr
  by_cases h : n = 0
  · simp [h]
    rfl
  · rw [if_neg h]
    exact (natReprAux_props n n (Nat.pos_of_ne_zero h) le_rfl).2.1

theorem natRepr_ne_nil (n : Nat) : natRepr n ≠ [] := by
  unfold natRepr
  by_cases h : n = 0
  · simp [h]
  · rw [if_neg h]
    exact (natReprAux_props n n (Nat.pos_of_ne_zero h) le_rfl).2.2

theorem natReprAux_length_le (fuel : Nat) :
    ∀ n w, n ≤ fuel → n < 10 ^ w → (natReprAux fuel n).length ≤ w := by
  induction fuel with
  | zero => intro n w _ _; simp [natReprAux]
  | succ fuel ih =>
    intro n w hle hlt
    by_cases h : n = 0
    · subst h
      rw [natReprAux_zero]
      simp
    · show (if n = 0 then [] else natReprAux fuel (n / 10) ++ [digitToChar (n % 10)]).length ≤ w
      rw [if_neg h]
      obtain ⟨w', rfl⟩ : ∃ w', w = w' + 1 := by
        refine ⟨w - 1, ?_⟩
        have : w ≠ 0 := by
          rintro rfl
          simp at hlt
          omega
        omega
      have hdiv : n / 10 < 10 ^ w' := by
        rw [Nat.div_lt_iff_lt_mul (by norm_num)]
        calc n < 10 ^ (w' + 1) := hlt
          _ = 10 ^ w' * 10 := by ring
      have hfuel : n / 10 ≤ fuel := by
        have := Nat.div_lt_self (Nat.pos_of_ne_zero h) (by norm_num : (1:Nat) < 10)
        omega
      have := ih (n / 10) w' hfuel hdiv
      simp only [List.length_append, List.length_cons, List.length_nil]
      omega

theorem natRepr_length_le (n w : Nat) (hw : 0 < w) (h : n < 10 ^ w) :
    (natRepr n).length ≤ w := by
  unfold natRepr
  by_cases h0 : n = 0
  · simp [h0]
    omega
  · rw [if_neg h0]
    exact natReprAux_length_le n n w le_rfl h

theorem zfill_natRepr_eq_padded (w n : Nat) (hw : 0 < w) (h : n < 10 ^ w) :
    zfill w (natRepr n) = padded w n := by
  unfold zfill
  have hlen : (natRepr n).length ≤ w := natRepr_length_le n w hw h
  have := padded_digitsToNat (natRepr n) (natRepr_all_digits n) w hlen
  rw [digitsToNat_natRepr] at this
  rw [← this]

theorem pyFmtD_of_nat (w : Nat) (n : Nat) (hw : 0 < w) (h : n < 10 ^ w) :
    pyFmtD w (n : ℤ) = padded w n := by
  unfold pyFmtD
  rw [if_neg (by simp)]
  simp only [Int.toNat_natCast]
  exact zfill_natRepr_eq_padded w n hw h

theorem pyFmtD_roundtrip (s : List Char) (hne : s ≠ []) (h : ∀ c ∈ s, c.isDigit = true) :
    pyFmtD s.length (digitsToNat s : ℤ) = s := by
  have hlen : 0 < s.length := List.length_pos.mpr hne
  rw [pyFmtD_of_nat _ _ hlen (digitsToNat_lt s h), padded_digitsToNat s h s.length le_rfl]
  simp

theorem splitOnChar_ne_nil (sep : Char) (l : List Char) : splitOnChar sep l ≠ [] := by
  cases l with
  | nil => simp [splitOnChar]
  | cons c cs =>
    show (match splitOnChar sep cs with
      | [] => [[]]
      | r :: rs => if c = sep then [] :: r :: rs else (c :: r) :: rs) ≠ []
    cases splitOnChar sep cs with
    | nil => simp
    | cons r rs =>
      by_cases h : c = sep <;> simp [h]

theorem splitOnChar_not_mem (sep : Char) (l : List Char) (h : sep ∉ l) :
    splitOnChar sep l = [l] := by
  induction l with
  | nil => rfl
  | cons c cs ih =>
    have hc : ¬c = sep := fun he => h (by simp [he])
    have hcs : sep ∉ cs := fun hm => h (by simp [hm])
    show (match splitOnChar sep cs with
      | [] => [[]]
      | r :: rs => if c = sep then [] :: r :: rs else (c :: r) :: rs) = [c :: cs]
    rw [ih hcs]
    simp [hc]

theorem splitOnChar_append (sep : Char) (a b : List Char) (h : sep ∉ a) :
    splitOnChar sep (a ++ sep :: b) = a :: splitOnChar sep b := by
  induction a with
  | nil =>
    show (match splitOnChar sep b with
      | [] => [[]]
      | r :: rs => if sep = sep then [] :: r :: rs else (sep :: r) :: rs) = [] :: splitOnChar sep b
    cases hb : splitOnChar sep b with
    | nil => exact absurd hb (splitOnChar_ne_nil sep b)
    | cons r rs => simp
  | cons c cs ih =>
    have hc : ¬c = sep := fun he => h (by simp [he])
    have hcs : sep ∉ cs := fun hm => h (by simp [hm])
    show (match splitOnChar sep (cs ++ sep :: b) with
      | [] => [[]]
      | r :: rs => if c = sep then [] :: r :: rs else (c :: r) :: rs) = _
    rw [ih hcs]
    simp [hc]

theorem firstDigitIdx_none_iff (l : List Char) :
    firstDigitIdx l = none ↔ ∀ c ∈ l, c.isDigit = false := by
  induction l with
  | nil => simp [firstDigitIdx]
  | cons c cs ih =>
    show (if c.isDigit then some 0 else (firstDigitIdx cs).map (· + 1)) = none ↔ _
    by_cases h : c.isDigit
    · simp [h]
    · rw [if_neg h]
      constructor
      · intro hmap x hx
        rcases List.mem_cons.mp hx with rfl | hx'
        · exact Bool.eq_false_iff.mpr h
        · have hnone : firstDigitIdx cs = none := by
            cases hfd : firstDigitIdx cs with
            | none => rfl
            | some v => rw [hfd] at hmap; simp at hmap
          exact (ih.mp hnone) x hx'
      · intro hall
        have : firstDigitIdx cs = none := ih.mpr (fun x hx => hall x (by simp [hx]))
        rw [this]
        rfl

theorem firstDigitIdx_append (a : List Char) (b : Char) (t : List Char)
    (ha : ∀ c ∈ a, c.isDigit = false) (hb : b.isDigit = true) :
    firstDigitIdx (a ++ b :: t) = some a.length := by
  induction a with
  | nil => simp [firstDigitIdx, hb]
  | cons c cs ih =>
    have hc : c.isDigit = false := ha c (by simp)
    show (if c.isDigit then some 0 else (firstDigitIdx (cs ++ b :: t)).map (· + 1))
        = some (cs.length + 1)
    rw [hc]
    simp only [Bool.false_eq_true, if_false]
    rw [ih (fun x hx => ha x (by simp [hx]))]
    rfl

theorem pyIntOfDigits_of_digits (s : List Char) (hne : s ≠ [])
    (h : ∀ c ∈ s, c.isDigit = true) : pyIntOfDigits s = .ok (digitsToNat s : ℤ) := by
  unfold pyIntOfDigits
  rw [if_pos]
  rw [Bool.and_eq_true]
  constructor
  · simp [hne]
  · rw [List.all_eq_true]
    intro c hc
    exact h c hc

theorem pyIntOfDigits_cases (s : List Char) :
    (∃ v, pyIntOfDigits s = .ok v) ∨ pyIntOfDigits s = .error .valueErrorIntLiteral := by
  unfold pyIntOfDigits
  by_cases h : (!s.isEmpty && s.all (·.isDigit)) = true
  · exact Or.inl ⟨_, by rw [if_pos h]⟩
  · exact Or.inr (by rw [if_neg h])

theorem printfGo_lit_char (c : Char) (t : List Char) (args : List ℤ) (h : ¬c = '%') :
    printfGo (c :: t) none args = c :: printfGo t none args := by
  simp [printfGo, h]

theorem printfGo_literal (lit rest : List Char) (args : List ℤ) (h : '%' ∉ lit) :
    printfGo (lit ++ rest) none args = lit ++ printfGo rest none args := by
  induction lit with
  | nil => rfl
  | cons c cs ih =>
    have hc : ¬c = '%' := fun he => h (by simp [he])
    rw [List.cons_append, printfGo_lit_char c _ _ hc, ih (fun hm => h (by simp [hm]))]
    rfl

theorem printfGo_pct (t : List Char) (args : List ℤ) :
    printfGo ('%' :: t) none args = printfGo t (some 0) args := by
  simp [printfGo]

theorem printfGo_digits (ds : List Char) (h : ∀ c ∈ ds, c.isDigit = true) :
    ∀ (rest : List Char) (w : Nat) (args : List ℤ),
      printfGo (ds ++ rest) (some w) args =
        printfGo rest (some (ds.foldl (fun a c => a * 10 + charToDigit c) w)) args := by
  induction ds with
  | nil => intro rest w args; rfl
  | cons c cs ih =>
    intro rest w args
    have hc : c.isDigit = true := h c (by simp)
    rw [List.cons_append]
    show (if c.isDigit then printfGo (cs ++ rest) (some (w * 10 + charToDigit c)) args
      else _) = _
    rw [hc]
    simp only [if_true]
    rw [ih (fun x hx => h x (by simp [hx]))]
    rfl

theorem printfGo_d (t : List Char) (w : Nat) (a : ℤ) (args : List ℤ) :
    printfGo ('d' :: t) (some w) (a :: args) = pyFmtD w a ++ printfGo t none args := by
  simp [printfGo]

theorem foldl_digits_cons_zero (ds : List Char) :
    ('0' :: ds).foldl (fun a c => a * 10 + charToDigit c) 0
      = ds.foldl (fun a c => a * 10 + charToDigit c) 0 := rfl

theorem foldl_digits_eq (ds : List Char) :
    ds.foldl (fun a c => a * 10 + charToDigit c) 0 = digitsToNat ds := rfl

theorem printf_tail_literal (t : List Char) (h : '%' ∉ t) (args : List ℤ) :
    printfGo t none args = t := by
  have hlit := printfGo_literal t [] args h
  rw [List.append_nil] at hlit
  rw [hlit]
  show t ++ printfGo [] none args = t
  simp [printfGo]

theorem foldl_min_le_init (l : List ℤ) : ∀ s : ℤ, l.foldl min s ≤ s := by
  induction l with
  | nil => intro s; exact le_rfl
  | cons x xs ih =>
    intro s
    calc xs.foldl min (min s x) ≤ min s x := ih (min s x)
      _ ≤ s := min_le_left s x

theorem foldl_min_le_mem (l : List ℤ) : ∀ (s x : ℤ), x ∈ l → l.foldl min s ≤ x := by
  induction l with
  | nil => intro s x hx; cases hx
  | cons y ys ih =>
    intro s x hx
    rcases List.mem_cons.mp hx with rfl | hx'
    · calc ys.foldl min (min s x) ≤ min s x := foldl_min_le_init ys (min s x)
        _ ≤ x := min_le_right s x
    · exact ih (min s y) x hx'

theorem foldl_min_eq_init_or_mem (l : List ℤ) : ∀ s : ℤ, l.foldl min s = s ∨ l.foldl min s ∈ l := by
  induction l with
  | nil => intro s; exact Or.inl rfl
  | cons x xs ih =>
    intro s
    rcases ih (min s x) with h | h
    · rcases min_choice s x with hm | hm
      · exact Or.inl (by rw [List.foldl_cons, h, hm])
      · exact Or.inr (by rw [List.foldl_cons, h, hm]; exact List.mem_cons_self x xs)
    · exact Or.inr (List.mem_cons_of_mem x h)

theorem foldl_min_spec (l : List ℤ) (s : ℤ) (hne : l ≠ []) (hb : ∀ x ∈ l, x ≤ s) :
    l.foldl min s ∈ l ∧ ∀ x ∈ l, l.foldl min s ≤ x := by
  refine ⟨?_, fun x hx => foldl_min_le_mem l s x hx⟩
  rcases foldl_min_eq_init_or_mem l s with h | h
  · obtain ⟨x0, hx0⟩ := List.exists_mem_of_ne_nil l hne
    have h1 : l.foldl min s ≤ x0 := foldl_min_le_mem l s x0 hx0
    have h2 : x0 ≤ s := hb x0 hx0
    have : l.foldl min s = x0 := le_antisymm h1 (by rw [h]; exact h2)
    rw [this]
    exact hx0
  · exact h

theorem foldl_max_init_le (l : List ℤ) : ∀ s : ℤ, s ≤ l.foldl max s := by
  induction l with
  | nil => intro s; exact le_rfl
  | cons x xs ih =>
    intro s
    calc s ≤ max s x := le_max_left s x
      _ ≤ xs.foldl max (max s x) := ih (max s x)

theorem foldl_max_mem_le (l : List ℤ) : ∀ (s x : ℤ), x ∈ l → x ≤ l.foldl max s := by
  induction l with
  | nil => intro s x hx; cases hx
  | cons y ys ih =>
    intro s x hx
    rcases List.mem_cons.mp hx with rfl | hx'
    · calc x ≤ max s x := le_max_right s x
        _ ≤ ys.foldl max (max s x) := foldl_max_init_le ys (max s x)
    · exact ih (max s y) x hx'

theorem foldl_max_eq_init_or_mem (l : List ℤ) : ∀ s : ℤ, l.foldl max s = s ∨ l.foldl max s ∈ l := by
  induction l with
  | nil => intro s; exact Or.inl rfl
  | cons x xs ih =>
    intro s
    rcases ih (max s x) with h | h
    · rcases max_choice s x with hm | hm
      · exact Or.inl (by rw [List.foldl_cons, h, hm])
      · exact Or.inr (by rw [List.foldl_cons, h, hm]; exact List.mem_cons_self x xs)
    · exact Or.inr (List.mem_cons_of_mem x h)

theorem foldl_max_spec (l : List ℤ) (s : ℤ) (hne : l ≠ []) (hb : ∀ x ∈ l, s ≤ x) :
    l.foldl max s ∈ l ∧ ∀ x ∈ l, x ≤ l.foldl max s := by
  refine ⟨?_, fun x hx => foldl_max_mem_le l s x hx⟩
  rcases foldl_max_eq_init_or_mem l s with h | h
  · obtain ⟨x0, hx0⟩ := List.exists_mem_of_ne_nil l hne
    have h1 : x0 ≤ l.foldl max s := foldl_max_mem_le l s x0 hx0
    have h2 : s ≤ x0 := hb x0 hx0
    have : l.foldl max s = x0 := le_antisymm (by rw [h]; exact h2) h1
    rw [this]
    exact hx0
  · exact h

theorem AssembleClothes.get_meta_info_loop_eq (F P : List Char → ℤ) (G : List Char) :
    ∀ (files : List (List Char)), (∀ f ∈ files, process_file f = .ok (F f, P f, G)) →
      ∀ (s e p : ℤ) (fmt0 : Option (List Char)),
        get_meta_info_loop files (s, e, p, fmt0)
          = .ok (files.foldl (fun a f => min a (F f)) s,
              files.foldl (fun a f => max a (F f)) e,
              files.foldl (fun a f => max a (P f)) p,
              if files.isEmpty then fmt0 else some G) := by
  intro files
  induction files with
  | nil => intro _ s e p fmt0; rfl
  | cons f fs ih =>
    intro h s e p fmt0
    have hf : process_file f = .ok (F f, P f, G) := h f (by simp)
    show (match process_file f with
      | Except.error err => Except.error err
      | Except.ok (frame, part, fmtf) =>
        get_meta_info_loop fs (min s frame, max e frame, max p part, some fmtf)) = _
    rw [hf]
    show get_meta_info_loop fs (min s (F f), max e (F f), max p (P f), some G) = _
    rw [ih (fun x hx => h x (by simp [hx]))]
    by_cases hfs : fs.isEmpty <;> simp [hfs]

theorem AssembleClothes.process_file_with_part (pre fs ps : List Char)
    (hpred : ∀ c ∈ pre, c.isDigit = false) (hpreu : '_' ∉ pre)
    (hfs : fs ≠ []) (hfsd : ∀ c ∈ fs, c.isDigit = true)
    (hps : ps ≠ []) (hpsd : ∀ c ∈ ps, c.isDigit = true) :
    AssembleClothes.process_file (pre ++ fs ++ '_' :: (ps ++ ".obj".data))
      = .ok ((digitsToNat fs : ℤ), (digitsToNat ps : ℤ) + 1,
          pre ++ "%0".data ++ natRepr fs.length ++ "d_%0".data
            ++ natRepr ps.length ++ "d.obj".data) := by
  obtain ⟨c, fs', rfl⟩ : ∃ c t, fs = c :: t := by
    cases fs with
    | nil => exact absurd rfl hfs
    | cons c t => exact ⟨c, t, rfl⟩
  have hufs : '_' ∉ pre ++ c :: fs' := by
    intro hm
    rcases List.mem_append.mp hm with hm | hm
    · exact hpreu hm
    · exact isDigit_ne_underscore _ (hfsd _ hm) rfl
  have hups : '_' ∉ ps ++ ".obj".data := by
    intro hm
    rcases List.mem_append.mp hm with hm | hm
    · exact isDigit_ne_underscore _ (hpsd _ hm) rfl
    · revert hm
      decide
  have hsplit : splitOnChar '_' (pre ++ c :: fs' ++ '_' :: (ps ++ ".obj".data))
      = [pre ++ c :: fs', ps ++ ".obj".data] := by
    rw [splitOnChar_append '_' (pre ++ c :: fs') _ hufs,
      splitOnChar_not_mem '_' _ hups]
  have hfdi : firstDigitIdx (pre ++ c :: fs' ++ '_' :: (ps ++ ".obj".data))
      = some pre.length := by
    have hshape : pre ++ c :: fs' ++ '_' :: (ps ++ ".obj".data)
        = pre ++ c :: (fs' ++ '_' :: (ps ++ ".obj".data)) := by
      simp [List.append_assoc]
    rw [hshape]
    exact firstDigitIdx_append pre c _ hpred (hfsd c (by simp))
  have hdotps : '.' ∉ ps := fun hm => isDigit_ne_dot _ (hpsd _ hm) rfl
  have hpsplit : splitOnChar '.' (ps ++ ".obj".data) = ps :: splitOnChar '.' "obj".data := by
    show splitOnChar '.' (ps ++ '.' :: "obj".data) = _
    exact splitOnChar_append '.' ps _ hdotps
  unfold process_file
  rw [hfdi, hsplit]
  show (match pyIntOfDigits ((pre ++ c :: fs').drop pre.length) with
    | Except.error err => Except.error err
    | Except.ok frame =>
      match pyIntOfDigits ((splitOnChar '.' (ps ++ ".obj".data)).headD []) with
      | Except.error err => Except.error err
      | Except.ok p =>
        Except.ok (frame, p + 1,
          (pre ++ c :: fs' ++ '_' :: (ps ++ ".obj".data)).take pre.length
            ++ "%0".data ++ natRepr ((pre ++ c :: fs').drop pre.length).length
            ++ "d_%0".data
            ++ natRepr ((splitOnChar '.' (ps ++ ".obj".data)).headD []).length
            ++ "d.obj".data)) = _
  rw [List.drop_left pre (c :: fs'), hpsplit]
  show (match pyIntOfDigits (c :: fs') with
    | Except.error err => Except.error err
    | Except.ok frame =>
      match pyIntOfDigits ps with
      | Except.error err => Except.error err
      | Except.ok p => _) = _
  rw [pyIntOfDigits_of_digits (c :: fs') (by simp) hfsd, pyIntOfDigits_of_digits ps hps hpsd]
  show Except.ok (((digitsToNat (c :: fs') : ℤ)), ((digitsToNat ps : ℤ)) + 1, _) = _
  have htake : (pre ++ c :: fs' ++ '_' :: (ps ++ ".obj".data)).take pre.length = pre := by
    have hshape : pre ++ c :: fs' ++ '_' :: (ps ++ ".obj".data)
        = pre ++ (c :: fs' ++ '_' :: (ps ++ ".obj".data)) := by
      simp [List.append_assoc]
    rw [hshape]
    exact List.take_left pre _
  rw [htake]
  rfl

theorem AssembleClothes.process_file_no_part (pre fs : List Char)
    (hpred : ∀ c ∈ pre, c.isDigit = false) (hpreu : '_' ∉ pre) (hpredot : '.' ∉ pre)
    (hfs : fs ≠ []) (hfsd : ∀ c ∈ fs, c.isDigit = true) :
    AssembleClothes.process_file (pre ++ fs ++ ".obj".data)
      = .ok ((digitsToNat fs : ℤ), 0,
          pre ++ "%0".data ++ natRepr fs.length ++ "d.obj".data) := by
  obtain ⟨c, fs', rfl⟩ : ∃ c t, fs = c :: t := by
    cases fs with
    | nil => exact absurd rfl hfs
    | cons c t => exact ⟨c, t, rfl⟩
  have hu : '_' ∉ pre ++ c :: fs' ++ ".obj".data := by
    intro hm
    rcases List.mem_append.mp hm with hm | hm
    · rcases List.mem_append.mp hm with hm | hm
      · exact hpreu hm
      · exact isDigit_ne_underscore _ (hfsd _ hm) rfl
    · revert hm
      decide
  have hsplit : splitOnChar '_' (pre ++ c :: fs' ++ ".obj".data)
      = [pre ++ c :: fs' ++ ".obj".data] := splitOnChar_not_mem '_' _ hu
  have hfdi : firstDigitIdx (pre ++ c :: fs' ++ ".obj".data) = some pre.length := by
    have hshape : pre ++ c :: fs' ++ ".obj".data = pre ++ c :: (fs' ++ ".obj".data) := by
      simp [List.append_assoc]
    rw [hshape]
    exact firstDigitIdx_append pre c _ hpred (hfsd c (by simp))
  have hdot : '.' ∉ pre ++ c :: fs' := by
    intro hm
    rcases List.mem_append.mp hm with hm | hm
    · exact hpredot hm
    · exact isDigit_ne_dot _ (hfsd _ hm) rfl
  have hdsplit : splitOnChar '.' (pre ++ c :: fs' ++ ".obj".data)
      = (pre ++ c :: fs') :: splitOnChar '.' "obj".data := by
    have hshape : pre ++ c :: fs' ++ ".obj".data
        = (pre ++ c :: fs') ++ '.' :: "obj".data := rfl
    rw [hshape]
    exact splitOnChar_append '.' (pre ++ c :: fs') _ hdot
  have htake : (pre ++ c :: fs' ++ ".obj".data).take pre.length = pre := by
    have hshape : pre ++ c :: fs' ++ ".obj".data
        = pre ++ (c :: fs' ++ ".obj".data) := by
      simp [List.append_assoc]
    rw [hshape]
    exact List.take_left pre _
  simp only [process_file, hfdi, hsplit, hdsplit, List.headD, List.drop_left, htake,
    pyIntOfDigits_of_digits (c :: fs') (by simp) hfsd]

theorem printf_regen_frame (fs t : List Char) (hfs : fs ≠ [])
    (hfsd : ∀ c ∈ fs, c.isDigit = true) (args : List ℤ) :
    printfGo ('%' :: '0' :: (natRepr fs.length ++ 'd' :: t)) none ((digitsToNat fs : ℤ) :: args)
      = fs ++ printfGo t none args := by
  rw [printfGo_pct]
  have hshape : ('0' :: (natRepr fs.length ++ 'd' :: t))
      = ('0' :: natRepr fs.length) ++ ('d' :: t) := by simp
  rw [hshape, printfGo_digits ('0' :: natRepr fs.length)
    (by
      intro c hc
      rcases List.mem_cons.mp hc with rfl | hc'
      · decide
      · exact natRepr_all_digits _ c hc')]
  rw [foldl_digits_cons_zero, foldl_digits_eq, digitsToNat_natRepr, printfGo_d,
    pyFmtD_roundtrip fs hfs hfsd]

theorem AssembleClothes.printf_regen_with_part (pre fs ps : List Char) (hpct : '%' ∉ pre)
    (hfs : fs ≠ []) (hfsd : ∀ c ∈ fs, c.isDigit = true)
    (hps : ps ≠ []) (hpsd : ∀ c ∈ ps, c.isDigit = true) :
    printfInt (pre ++ "%0".data ++ natRepr fs.length ++ "d_%0".data
        ++ natRepr ps.length ++ "d.obj".data)
      [(digitsToNat fs : ℤ), (digitsToNat ps : ℤ)]
      = pre ++ fs ++ '_' :: (ps ++ ".obj".data) := by
  unfold printfInt
  have h1 : "%0".data = ['%', '0'] := rfl
  have h2 : "d_%0".data = ['d', '_', '%', '0'] := rfl
  have h3 : "d.obj".data = 'd' :: ".obj".data := rfl
  have hshape : pre ++ "%0".data ++ natRepr fs.length ++ "d_%0".data
      ++ natRepr ps.length ++ "d.obj".data
      = pre ++ ('%' :: '0' :: (natRepr fs.length ++ 'd' :: ('_' :: '%' :: '0' ::
          (natRepr ps.length ++ 'd' :: ".obj".data)))) := by
    rw [h1, h2, h3]
    simp [List.append_assoc]
  rw [hshape, printfGo_literal pre _ _ hpct, printf_regen_frame fs _ hfs hfsd,
    printfGo_lit_char '_' _ _ (by decide), printf_regen_frame ps _ hps hpsd,
    printf_tail_literal ".obj".data (by decide) []]
  simp [List.append_assoc]

theorem AssembleClothes.printf_regen_no_part (pre fs : List Char) (hpct : '%' ∉ pre)
    (hfs : fs ≠ []) (hfsd : ∀ c ∈ fs, c.isDigit = true) :
    printfInt (pre ++ "%0".data ++ natRepr fs.length ++ "d.obj".data)
      [(digitsToNat fs : ℤ)]
      = pre ++ fs ++ ".obj".data := by
  unfold printfInt
  have h1 : "%0".data = ['%', '0'] := rfl
  have h3 : "d.obj".data = 'd' :: ".obj".data := rfl
  have hshape : pre ++ "%0".data ++ natRepr fs.length ++ "d.obj".data
      = pre ++ ('%' :: '0' :: (natRepr fs.length ++ 'd' :: ".obj".data)) := by
    rw [h1, h3]
    simp [List.append_assoc]
  rw [hshape, printfGo_literal pre _ _ hpct, printf_regen_frame fs _ hfs hfsd,
    printf_tail_literal ".obj".data (by decide) []]
  simp [List.append_assoc]

/-- C9: on a directory containing no files, `get_meta_info` raises
`UnboundLocalError` (a subclass of `NameError`): the local `format` is
only assigned inside the per-file loop, so the sentinel values
`start_frame = 9999999`, `end_frame = -9999999`, `parts = 0` are never
returned to a caller. -/
theorem AssembleClothes.get_meta_info_empty_dir_name_error :
    AssembleClothes.get_meta_info [] = .error .unboundLocalError := rfl

/-- C2: for input base name `cloth0000.obj`, part index 0 and the default
padding 3, `seperate_obj` writes `cloth0000000.obj`, not the
`cloth0000_000.obj` promised by its own docstring and by the frame
sequence convention: the underscore separator is missing from the
constructed filename. -/
theorem SeperateObjSequence.seperate_obj_missing_underscore :
    SeperateObjSequence.seperate_obj_output_filename "cloth0000.obj".data 0 3
        = "cloth0000000.obj".data ∧
      SeperateObjSequence.seperate_obj_output_filename "cloth0000.obj".data 0 3
        ≠ "cloth0000_000.obj".data := by
  constructor
  · decide
  · decide

/-- C5 (amended): the explicit `ValueError("parse file format failure")`
raise is reached by a filename exactly when the filename contains at least
one decimal digit (so that `re.search(r"\d", file).start()` on the
preceding line does not itself raise `AttributeError`) and splits on `_`
into three or more segments; a filename with zero or one underscore never
reaches that raise statement. -/
theorem AssembleClothes.parse_format_failure_iff (file : List Char) :
    AssembleClothes.process_file file = .error .valueErrorParseFormat ↔
      (∃ c ∈ file, c.isDigit = true) ∧ 3 ≤ (splitOnChar '_' file).length := by
  unfold process_file
  cases hfdi : firstDigitIdx file with
  | none =>
    simp only [hfdi]
    constructor
    · intro h
      simp at h
    · rintro ⟨⟨c, hc, hcd⟩, _⟩
      have := (firstDigitIdx_none_iff file).mp hfdi c hc
      rw [hcd] at this
      cases this
  | some idx =>
    have hdig : ∃ c ∈ file, c.isDigit = true := by
      by_contra hcon
      have hall : ∀ c ∈ file, c.isDigit = false := by
        intro c hc
        by_cases hb : c.isDigit = true
        · exact absurd ⟨c, hc, hb⟩ hcon
        · exact Bool.eq_false_iff.mpr hb
      rw [(firstDigitIdx_none_iff file).mpr hall] at hfdi
      cases hfdi
    cases hsp : splitOnChar '_' file with
    | nil => exact absurd hsp (splitOnChar_ne_nil '_' file)
    | cons a rest =>
      cases rest with
      | nil =>
        simp only [hfdi, hsp]
        constructor
        · intro h
          rcases pyIntOfDigits_cases (((splitOnChar '.' file).headD []).drop idx)
            with ⟨v, hv⟩ | hv <;> rw [hv] at h <;> simp at h
        · rintro ⟨_, hlen⟩
          simp at hlen
      | cons b rest2 =>
        cases rest2 with
        | nil =>
          simp only [hfdi, hsp]
          constructor
          · intro h
            rcases pyIntOfDigits_cases (a.drop idx) with ⟨v, hv⟩ | hv <;> rw [hv] at h
            · rcases pyIntOfDigits_cases ((splitOnChar '.' b).headD [])
                with ⟨v2, hv2⟩ | hv2 <;> rw [hv2] at h <;> simp at h
            · simp at h
          · rintro ⟨_, hlen⟩
            simp at hlen
        | cons d rest3 =>
          simp only [hfdi, hsp]
          constructor
          · intro _
            exact ⟨hdig, by simp⟩
          · intro _
            trivial

/-- C5 counterexample: the directory containing only `a_b_c.obj` has a
filename that splits on `_` into three segments, yet `get_meta_info`
raises `AttributeError` (from `re.search(r"\d", file).start()` on a
digit-free name), not the explicit
`ValueError("parse file format failure")`. -/
theorem AssembleClothes.parse_format_failure_counterexample :
    3 ≤ (splitOnChar '_' "a_b_c.obj".data).length ∧
      AssembleClothes.get_meta_info ["a_b_c.obj".data] = .error .attributeError ∧
      AssembleClothes.get_meta_info ["a_b_c.obj".data]
        ≠ .error .valueErrorParseFormat := by
  refine ⟨by decide, by decide, by decide⟩

/-- C1 counterexample: a conforming directory whose single file is
`c99999999.obj` (frame field `99999999`, eight digits).  The minimum frame
number is 99999999, but `get_meta_info` returns `start_frame = 9999999`,
the initial sentinel, because `min(9999999, 99999999)` keeps the sentinel. -/
theorem AssembleClothes.get_meta_info_sentinel_counterexample :
    AssembleClothes.get_meta_info ["c99999999.obj".data]
        = .ok ⟨9999999, 99999999, 0, "c%08d.obj".data⟩ ∧
      (9999999 : ℤ) ≠ ((digitsToNat "99999999".data : ℤ)) := by
  constructor
  · decide
  · decide

theorem foldl_max_le_bound (l : List ℤ) : ∀ (s b : ℤ), s ≤ b → (∀ x ∈ l, x ≤ b) →
    l.foldl max s ≤ b := by
  induction l with
  | nil => intro s b hs _; exact hs
  | cons x xs ih =>
    intro s b hs hb
    exact ih (max s x) b (max_le hs (hb x (by simp))) (fun y hy => hb y (by simp [hy]))


theorem AssembleClothes.frameOf_eq (f : List Char) (a b : ℤ) (c : List Char)
    (h : AssembleClothes.process_file f = .ok (a, b, c)) :
    AssembleClothes.frameOf f = a := by
  unfold frameOf
  rw [h]

theorem AssembleClothes.partOf_eq (f : List Char) (a b : ℤ) (c : List Char)
    (h : AssembleClothes.process_file f = .ok (a, b, c)) :
    AssembleClothes.partOf f = b := by
  unfold partOf
  rw [h]

/-- C1 (amended): on a non-empty directory whose filenames all follow the
convention `[prefix][frame]_[part].obj` (resp. `[prefix][frame].obj`) with
one common prefix (free of digits, `_`, `.` and `%`) and fixed digit
counts `N` for frames and `M` for parts, and provided `N ≤ 7` (so that
the frame numbers do not exceed the code's `start_frame` sentinel
9999999), `get_meta_info` returns the minimum frame as `start_frame`, the
maximum frame as `end_frame`, one plus the maximum part number as `parts`
(0 when the files carry no part segment), and the printf pattern
`prefix + %0Nd + _ + %0Md + .obj` (resp. `prefix + %0Nd + .obj`) as
`format`, instantiating which at each file's frame and part numbers
regenerates exactly that file's name. -/
theorem AssembleClothes.get_meta_info_conforms
    (pre : List Char) (N M : Nat) (withPart : Bool)
    (specs : List (List Char × List Char))
    (hne : specs ≠ [])
    (hpred : ∀ c ∈ pre, c.isDigit = false)
    (hpreu : '_' ∉ pre) (hpredot : '.' ∉ pre) (hprepct : '%' ∉ pre)
    (hN : 0 < N) (hN7 : N ≤ 7) (hM : withPart = true → 0 < M)
    (hspecs : ∀ sp ∈ specs,
      sp.1.length = N ∧ (∀ c ∈ sp.1, c.isDigit = true) ∧
        (withPart = true → sp.2.length = M ∧ ∀ c ∈ sp.2, c.isDigit = true)) :
    ∃ info, AssembleClothes.get_meta_info
        (specs.map (AssembleClothes.conventionName pre withPart)) = .ok info ∧
      (info.start_frame ∈ specs.map (fun sp => (digitsToNat sp.1 : ℤ)) ∧
        ∀ fr ∈ specs.map (fun sp => (digitsToNat sp.1 : ℤ)), info.start_frame ≤ fr) ∧
      (info.end_frame ∈ specs.map (fun sp => (digitsToNat sp.1 : ℤ)) ∧
        ∀ fr ∈ specs.map (fun sp => (digitsToNat sp.1 : ℤ)), fr ≤ info.end_frame) ∧
      (withPart = true →
        info.parts - 1 ∈ specs.map (fun sp => (digitsToNat sp.2 : ℤ)) ∧
          ∀ pv ∈ specs.map (fun sp => (digitsToNat sp.2 : ℤ)), pv ≤ info.parts - 1) ∧
      (withPart = false → info.parts = 0) ∧
      info.format = AssembleClothes.conventionFormat pre withPart N M ∧
      ∀ sp ∈ specs,
        printfInt info.format
            (if withPart then [(digitsToNat sp.1 : ℤ), (digitsToNat sp.2 : ℤ)]
              else [(digitsToNat sp.1 : ℤ)])
          = AssembleClothes.conventionName pre withPart sp := by
  have hpf : ∀ sp ∈ specs,
      process_file (conventionName pre withPart sp)
        = .ok ((digitsToNat sp.1 : ℤ),
            (if withPart then (digitsToNat sp.2 : ℤ) + 1 else 0),
            conventionFormat pre withPart N M) := by
    intro sp hsp
    obtain ⟨h1len, h1dig, hpart⟩ := hspecs sp hsp
    have h1ne : sp.1 ≠ [] := by
      intro habs
      rw [habs] at h1len
      simp at h1len
      omega
    cases withPart with
    | true =>
      obtain ⟨h2len, h2dig⟩ := hpart rfl
      have h2ne : sp.2 ≠ [] := by
        intro habs
        rw [habs] at h2len
        simp at h2len
        have := hM rfl
        omega
      show process_file (pre ++ sp.1 ++ '_' :: (sp.2 ++ ".obj".data)) = _
      rw [process_file_with_part pre sp.1 sp.2 hpred hpreu h1ne h1dig h2ne h2dig,
        h1len, h2len]
      rfl
    | false =>
      show process_file (pre ++ sp.1 ++ ".obj".data) = _
      rw [process_file_no_part pre sp.1 hpred hpreu hpredot h1ne h1dig, h1len]
      rfl
  have hFP : ∀ f ∈ specs.map (conventionName pre withPart),
      process_file f = .ok (frameOf f, partOf f, conventionFormat pre withPart N M) := by
    intro f hf
    obtain ⟨sp, hsp, rfl⟩ := List.mem_map.mp hf
    rw [hpf sp hsp, frameOf_eq _ _ _ _ (hpf sp hsp), partOf_eq _ _ _ _ (hpf sp hsp)]
  have hloop := get_meta_info_loop_eq frameOf partOf _ _ hFP 9999999 (-9999999) 0 none
  have hie : (specs.map (conventionName pre withPart)).isEmpty = false := by
    rw [List.isEmpty_eq_false]
    intro habs
    exact hne (List.map_eq_nil_iff.mp habs)
  have hmapF : (specs.map (conventionName pre withPart)).map frameOf
      = specs.map (fun sp => (digitsToNat sp.1 : ℤ)) := by
    rw [List.map_map]
    refine List.map_congr_left ?_
    intro sp hsp
    exact frameOf_eq _ _ _ _ (hpf sp hsp)
  have hmapP : (specs.map (conventionName pre withPart)).map partOf
      = specs.map (fun sp => if withPart then (digitsToNat sp.2 : ℤ) + 1 else 0) := by
    rw [List.map_map]
    refine List.map_congr_left ?_
    intro sp hsp
    exact partOf_eq _ _ _ _ (hpf sp hsp)
  have hframes_ne : specs.map (fun sp => (digitsToNat sp.1 : ℤ)) ≠ [] := by
    intro habs
    exact hne (List.map_eq_nil_iff.mp habs)
  have hframes_le : ∀ x ∈ specs.map (fun sp => (digitsToNat sp.1 : ℤ)), x ≤ 9999999 := by
    intro x hx
    obtain ⟨sp, hsp, rfl⟩ := List.mem_map.mp hx
    obtain ⟨h1len, h1dig, _⟩ := hspecs sp hsp
    have hlt : digitsToNat sp.1 < 10 ^ N := by
      rw [← h1len]
      exact digitsToNat_lt sp.1 h1dig
    have hpow : (10 : Nat) ^ N ≤ 10 ^ 7 := Nat.pow_le_pow_right (by norm_num) hN7
    have hsmall : digitsToNat sp.1 ≤ 9999999 := by
      have h7 : (10 : Nat) ^ 7 = 10000000 := by norm_num
      omega
    exact_mod_cast hsmall
  have hframes_ge : ∀ x ∈ specs.map (fun sp => (digitsToNat sp.1 : ℤ)), -9999999 ≤ x := by
    intro x hx
    obtain ⟨sp, hsp, rfl⟩ := List.mem_map.mp hx
    have : (0:ℤ) ≤ (digitsToNat sp.1 : ℤ) := Int.natCast_nonneg _
    omega
  unfold get_meta_info
  rw [hloop, hie]
  simp only [Bool.false_eq_true, if_false]
  refine ⟨_, rfl, ?_, ?_, ?_, ?_, rfl, ?_⟩
  · dsimp only
    rw [← List.foldl_map, hmapF]
    exact foldl_min_spec _ 9999999 hframes_ne hframes_le
  · dsimp only
    rw [← List.foldl_map, hmapF]
    exact foldl_max_spec _ (-9999999) hframes_ne hframes_ge
  · intro hw
    dsimp only
    rw [← List.foldl_map, hmapP, hw]
    simp only [if_true]
    have hparts_ne : specs.map (fun sp => (digitsToNat sp.2 : ℤ) + 1) ≠ [] := by
      intro habs
      exact hne (List.map_eq_nil_iff.mp habs)
    have hparts_ge : ∀ x ∈ specs.map (fun sp => (digitsToNat sp.2 : ℤ) + 1), (0:ℤ) ≤ x := by
      intro x hx
      obtain ⟨sp, hsp, rfl⟩ := List.mem_map.mp hx
      have : (0:ℤ) ≤ (digitsToNat sp.2 : ℤ) := Int.natCast_nonneg _
      omega
    obtain ⟨hmem, hub⟩ := foldl_max_spec _ 0 hparts_ne hparts_ge
    constructor
    · obtain ⟨sp, hsp, heq⟩ := List.mem_map.mp hmem
      refine List.mem_map.mpr ⟨sp, hsp, ?_⟩
      omega
    · intro pv hpv
      obtain ⟨sp, hsp, rfl⟩ := List.mem_map.mp hpv
      have := hub _ (List.mem_map.mpr ⟨sp, hsp, rfl⟩)
      omega
  · intro hw
    dsimp only
    rw [← List.foldl_map, hmapP, hw]
    simp only [Bool.false_eq_true, if_false]
    refine le_antisymm ?_ (foldl_max_init_le _ 0)
    refine foldl_max_le_bound _ 0 0 le_rfl ?_
    intro x hx
    obtain ⟨sp, hsp, rfl⟩ := List.mem_map.mp hx
    exact le_rfl
  · intro sp hsp
    obtain ⟨h1len, h1dig, hpart⟩ := hspecs sp hsp
    have h1ne : sp.1 ≠ [] := by
      intro habs
      rw [habs] at h1len
      simp at h1len
      omega
    cases withPart with
    | true =>
      obtain ⟨h2len, h2dig⟩ := hpart rfl
      have h2ne : sp.2 ≠ [] := by
        intro habs
        rw [habs] at h2len
        simp at h2len
        have := hM rfl
        omega
      show printfInt (conventionFormat pre true N M)
          [(digitsToNat sp.1 : ℤ), (digitsToNat sp.2 : ℤ)] = _
      have hfmt : conventionFormat pre true N M
          = pre ++ "%0".data ++ natRepr sp.1.length ++ "d_%0".data
            ++ natRepr sp.2.length ++ "d.obj".data := by
        rw [h1len, h2len]
        rfl
      rw [hfmt, printf_regen_with_part pre sp.1 sp.2 hprepct h1ne h1dig h2ne h2dig]
      rfl
    | false =>
      show printfInt (conventionFormat pre false N M) [(digitsToNat sp.1 : ℤ)] = _
      have hfmt : conventionFormat pre false N M
          = pre ++ "%0".data ++ natRepr sp.1.length ++ "d.obj".data := by
        rw [h1len]
        rfl
      rw [hfmt, printf_regen_no_part pre sp.1 hprepct h1ne h1dig]
      rfl

/-- Witness for the amended C1 theorem: a concrete two-file directory
`cloth0001_00.obj`, `cloth0002_01.obj` satisfies all hypotheses, and the
returned meta info is `start_frame = 1`, `end_frame = 2`, `parts = 2`,
`format = cloth%04d_%02d.obj`. -/
theorem AssembleClothes.get_meta_info_conforms_witness :
    ∃ info, AssembleClothes.get_meta_info
        ([("0001".data, "00".data), ("0002".data, "01".data)].map
          (AssembleClothes.conventionName "cloth".data true)) = .ok info ∧
      info.start_frame = 1 ∧ info.end_frame = 2 ∧ info.parts = 2 ∧
      info.format = "cloth%04d_%02d.obj".data := by
  obtain ⟨info, h1, ⟨hs_mem, hs_lb⟩, ⟨he_mem, he_ub⟩, _, _, hfmt, _⟩ :=
    AssembleClothes.get_meta_info_conforms "cloth".data 4 2 true
      [("0001".data, "00".data), ("0002".data, "01".data)]
      (by decide) (by decide) (by decide) (by decide) (by decide)
      (by decide) (by decide) (by decide) (by decide)
  have hmap : ([("0001".data, "00".data), ("0002".data, "01".data)].map
      (fun sp => (digitsToNat sp.1 : ℤ))) = [1, 2] := by decide
  rw [hmap] at hs_mem hs_lb he_mem he_ub
  have hinfo : AssembleClothes.get_meta_info
      ([("0001".data, "00".data), ("0002".data, "01".data)].map
        (AssembleClothes.conventionName "cloth".data true)) = .ok info := h1
  refine ⟨info, h1, ?_, ?_, ?_, ?_⟩
  · have hle := hs_lb 1 (by decide)
    simp at hs_mem
    omega
  · have hge := he_ub 2 (by decide)
    simp at he_mem
    omega
  · have hmapmax : AssembleClothes.get_meta_info
        ([("0001".data, "00".data), ("0002".data, "01".data)].map
          (AssembleClothes.conventionName "cloth".data true))
        = .ok ⟨1, 2, 2, "cloth%04d_%02d.obj".data⟩ := by decide
    rw [hmapmax] at h1
    cases h1
    rfl
  · rw [hfmt]
    decide

theorem pre_trans (p q r : List Char) (h1 : ∃ t, p ++ t = q) (h2 : ∃ t, q ++ t = r) :
    ∃ t, p ++ t = r := by
  obtain ⟨t1, rfl⟩ := h1
  obtain ⟨t2, rfl⟩ := h2
  exact ⟨t1 ++ t2, by simp⟩

theorem AssembleScenes.lcp_pre_left (a : List Char) : ∀ b, ∃ t, AssembleScenes.lcp a b ++ t = a := by
  induction a with
  | nil => intro b; exact ⟨[], by cases b <;> rfl⟩
  | cons x xs ih =>
    intro b
    cases b with
    | nil => exact ⟨x :: xs, rfl⟩
    | cons y ys =>
      by_cases h : x = y
      · obtain ⟨t, ht⟩ := ih ys
        subst h
        refine ⟨t, ?_⟩
        show (if x = x then x :: lcp xs ys else []) ++ t = x :: xs
        rw [if_pos rfl]
        simp [ht]
      · refine ⟨x :: xs, ?_⟩
        show (if x = y then x :: lcp xs ys else []) ++ (x :: xs) = x :: xs
        rw [if_neg h]
        rfl

theorem AssembleScenes.lcp_pre_right (a : List Char) : ∀ b, ∃ t, AssembleScenes.lcp a b ++ t = b := by
  induction a with
  | nil => intro b; exact ⟨b, by cases b <;> rfl⟩
  | cons x xs ih =>
    intro b
    cases b with
    | nil => exact ⟨[], rfl⟩
    | cons y ys =>
      by_cases h : x = y
      · obtain ⟨t, ht⟩ := ih ys
        subst h
        refine ⟨t, ?_⟩
        show (if x = x then x :: lcp xs ys else []) ++ t = x :: ys
        rw [if_pos rfl]
        simp [ht]
      · refine ⟨y :: ys, ?_⟩
        show (if x = y then x :: lcp xs ys else []) ++ (y :: ys) = y :: ys
        rw [if_neg h]
        rfl

theorem AssembleScenes.lcp_longest (p : List Char) :
    ∀ (a b : List Char), (∃ t, p ++ t = a) → (∃ t, p ++ t = b) →
      ∃ t, p ++ t = AssembleScenes.lcp a b := by
  induction p with
  | nil => intro a b _ _; exact ⟨lcp a b, rfl⟩
  | cons c ps ih =>
    rintro a b ⟨t1, rfl⟩ ⟨t2, rfl⟩
    obtain ⟨t, ht⟩ := ih (ps ++ t1) (ps ++ t2) ⟨t1, rfl⟩ ⟨t2, rfl⟩
    refine ⟨t, ?_⟩
    show c :: ps ++ t = lcp (c :: (ps ++ t1)) (c :: (ps ++ t2))
    show c :: ps ++ t = (if c = c then c :: lcp (ps ++ t1) (ps ++ t2) else [])
    rw [if_pos rfl]
    simp [ht]

theorem AssembleScenes.foldl_lcp_spec (l : List (List Char)) :
    ∀ c : List Char,
      (∃ t, l.foldl AssembleScenes.lcp c ++ t = c) ∧
        (∀ n ∈ l, ∃ t, l.foldl AssembleScenes.lcp c ++ t = n) ∧
        (∀ p, (∃ t, p ++ t = c) → (∀ n ∈ l, ∃ t, p ++ t = n) →
          ∃ t, p ++ t = l.foldl AssembleScenes.lcp c) := by
  induction l with
  | nil =>
    intro c
    exact ⟨⟨[], by simp⟩, by simp, fun p hc _ => hc⟩
  | cons x xs ih =>
    intro c
    obtain ⟨ih1, ih2, ih3⟩ := ih (lcp c x)
    have hcx_c : ∃ t, lcp c x ++ t = c := lcp_pre_left c x
    have hcx_x : ∃ t, lcp c x ++ t = x := lcp_pre_right c x
    refine ⟨pre_trans _ _ _ ih1 hcx_c, ?_, ?_⟩
    · intro n hn
      rcases List.mem_cons.mp hn with rfl | hn'
      · exact pre_trans _ _ _ ih1 hcx_x
      · exact ih2 n hn'
    · intro p hpc hpall
      have hpx : ∃ t, p ++ t = x := hpall x (by simp)
      have hplcp : ∃ t, p ++ t = lcp c x := lcp_longest p c x hpc hpx
      exact ih3 p hplcp (fun n hn => hpall n (by simp [hn]))

theorem AssembleScenes.foldl_lcs_eq_reverse (l : List (List Char)) :
    ∀ c : List Char,
      l.foldl AssembleScenes.lcs c
        = ((l.map List.reverse).foldl AssembleScenes.lcp c.reverse).reverse := by
  induction l with
  | nil => intro c; simp
  | cons x xs ih =>
    intro c
    show xs.foldl lcs (lcs c x) = _
    rw [ih (lcs c x)]
    have : (lcs c x).reverse = lcp c.reverse x.reverse := by
      unfold lcs
      rw [List.reverse_reverse]
    rw [this]
    rfl

theorem AssembleScenes.frameFold_eq (preL sufL : Nat) (names : List (List Char))
    (h : ∀ n ∈ names, pyIntOfDigits (AssembleScenes.middleOf preL sufL n)
      = .ok ((digitsToNat (AssembleScenes.middleOf preL sufL n) : ℤ))) :
    ∀ s e : ℤ, AssembleScenes.frameFold preL sufL names (s, e)
      = .ok (names.foldl
          (fun a n => min a ((digitsToNat (AssembleScenes.middleOf preL sufL n) : ℤ))) s,
        names.foldl
          (fun a n => max a ((digitsToNat (AssembleScenes.middleOf preL sufL n) : ℤ))) e) := by
  induction names with
  | nil => intro s e; rfl
  | cons n ns ih =>
    intro s e
    show (match pyIntOfDigits (middleOf preL sufL n) with
      | Except.error err => Except.error err
      | Except.ok frame => frameFold preL sufL ns (min s frame, max e frame)) = _
    rw [h n (by simp)]
    show frameFold preL sufL ns
        (min s ((digitsToNat (middleOf preL sufL n) : ℤ)),
          max e ((digitsToNat (middleOf preL sufL n) : ℤ))) = _
    rw [ih (fun m hm => h m (by simp [hm]))]
    rfl

/-- C4 (amended): for a non-empty listing whose inferred common suffix is
non-empty and whose stripped middles are non-empty digit strings, the
inference loop computes exactly the longest common prefix and the longest
common suffix of the listing; `endFrame` becomes the maximum of the
parsed frame numbers, and `startFrame` becomes `min(100000000, minimum
frame)` — the true minimum only when some frame number does not exceed the
code's `100000000` sentinel. -/
theorem AssembleScenes.affix_inference_spec
    (filenames : List (List Char)) (hne : filenames ≠ [])
    (hmid : ∀ n ∈ filenames,
      AssembleScenes.middleOf (AssembleScenes.commonPre filenames).length
          (AssembleScenes.commonSuf filenames).length n ≠ [] ∧
        ∀ c ∈ AssembleScenes.middleOf (AssembleScenes.commonPre filenames).length
          (AssembleScenes.commonSuf filenames).length n, c.isDigit = true) :
    (∀ n ∈ filenames, ∃ t, AssembleScenes.commonPre filenames ++ t = n) ∧
    (∀ p, (∀ n ∈ filenames, ∃ t, p ++ t = n) →
      ∃ t, p ++ t = AssembleScenes.commonPre filenames) ∧
    (∀ n ∈ filenames, ∃ t, n = t ++ AssembleScenes.commonSuf filenames) ∧
    (∀ s, (∀ n ∈ filenames, ∃ t, n = t ++ s) →
      ∃ t, AssembleScenes.commonSuf filenames = t ++ s) ∧
    ∃ sF eF,
      AssembleScenes.inferDirMeta filenames 100000000 (-1)
        = .ok (AssembleScenes.commonPre filenames, AssembleScenes.commonSuf filenames,
            sF, eF) ∧
      sF ≤ 100000000 ∧
      (∀ fr ∈ AssembleScenes.framesOf filenames, sF ≤ fr) ∧
      (sF = 100000000 ∨ sF ∈ AssembleScenes.framesOf filenames) ∧
      eF ∈ AssembleScenes.framesOf filenames ∧
      ∀ fr ∈ AssembleScenes.framesOf filenames, fr ≤ eF := by
  have hhead_mem : filenames.headD [] ∈ filenames := by
    cases filenames with
    | nil => exact absurd rfl hne
    | cons x xs => simp
  obtain ⟨hp1, hp2, hp3⟩ := foldl_lcp_spec filenames (filenames.headD [])
  have hrevfold : AssembleScenes.commonSuf filenames
      = ((filenames.map List.reverse).foldl AssembleScenes.lcp
          (filenames.headD []).reverse).reverse := by
    unfold commonSuf
    rw [foldl_lcs_eq_reverse]
  obtain ⟨hs1, hs2, hs3⟩ :=
    foldl_lcp_spec (filenames.map List.reverse) ((filenames.headD []).reverse)
  refine ⟨fun n hn => hp2 n hn, ?_, ?_, ?_, ?_⟩
  · intro p hpall
    exact hp3 p (hpall _ hhead_mem) hpall
  · intro n hn
    obtain ⟨t, ht⟩ := hs2 n.reverse (List.mem_map.mpr ⟨n, hn, rfl⟩)
    refine ⟨t.reverse, ?_⟩
    have := congrArg List.reverse ht
    rw [List.reverse_append, List.reverse_reverse] at this
    rw [hrevfold, ← this]
  · intro s hs
    have hsrev : ∀ m ∈ filenames.map List.reverse, ∃ t, s.reverse ++ t = m := by
      intro m hm
      obtain ⟨n, hn, rfl⟩ := List.mem_map.mp hm
      obtain ⟨t, rfl⟩ := hs n hn
      exact ⟨t.reverse, by rw [← List.reverse_append]⟩
    obtain ⟨t, ht⟩ := hs3 s.reverse (hsrev _ (List.mem_map.mpr ⟨_, hhead_mem, rfl⟩)) hsrev
    refine ⟨t.reverse, ?_⟩
    rw [hrevfold, ← ht, List.reverse_append, List.reverse_reverse]
  · have hms : ∀ n ∈ filenames,
        pyIntOfDigits (AssembleScenes.middleOf (AssembleScenes.commonPre filenames).length
          (AssembleScenes.commonSuf filenames).length n)
          = .ok ((digitsToNat (AssembleScenes.middleOf
              (AssembleScenes.commonPre filenames).length
              (AssembleScenes.commonSuf filenames).length n) : ℤ)) := by
      intro n hn
      obtain ⟨hne', hdig⟩ := hmid n hn
      exact pyIntOfDigits_of_digits _ hne' hdig
    have hff := frameFold_eq _ _ filenames hms 100000000 (-1)
    have hfr_ne : AssembleScenes.framesOf filenames ≠ [] := by
      unfold framesOf
      intro habs
      exact hne (List.map_eq_nil_iff.mp habs)
    have hfr_ge : ∀ x ∈ AssembleScenes.framesOf filenames, (-1 : ℤ) ≤ x := by
      intro x hx
      obtain ⟨n, hn, rfl⟩ := List.mem_map.mp hx
      have : (0:ℤ) ≤ (digitsToNat (AssembleScenes.middleOf
          (AssembleScenes.commonPre filenames).length
          (AssembleScenes.commonSuf filenames).length n) : ℤ) := Int.natCast_nonneg _
      omega
    refine ⟨filenames.foldl
        (fun a n => min a ((digitsToNat (AssembleScenes.middleOf
          (AssembleScenes.commonPre filenames).length
          (AssembleScenes.commonSuf filenames).length n) : ℤ))) 100000000,
      filenames.foldl
        (fun a n => max a ((digitsToNat (AssembleScenes.middleOf
          (AssembleScenes.commonPre filenames).length
          (AssembleScenes.commonSuf filenames).length n) : ℤ))) (-1),
      ?_, ?_, ?_, ?_, ?_, ?_⟩
    · unfold inferDirMeta
      dsimp only
      rw [hff]
    · have h := foldl_min_le_init (AssembleScenes.framesOf filenames) 100000000
      unfold AssembleScenes.framesOf at h
      rw [List.foldl_map] at h
      exact h
    · intro fr hfr
      have h := foldl_min_le_mem (AssembleScenes.framesOf filenames) 100000000 fr hfr
      unfold AssembleScenes.framesOf at h
      rw [List.foldl_map] at h
      exact h
    · have h := foldl_min_eq_init_or_mem (AssembleScenes.framesOf filenames) 100000000
      unfold AssembleScenes.framesOf at h
      rw [List.foldl_map] at h
      exact h
    · have h := (foldl_max_spec (AssembleScenes.framesOf filenames) (-1) hfr_ne hfr_ge).1
      unfold AssembleScenes.framesOf at h
      rw [List.foldl_map] at h
      exact h
    · intro fr hfr
      have h := (foldl_max_spec (AssembleScenes.framesOf filenames) (-1) hfr_ne hfr_ge).2 fr hfr
      unfold AssembleScenes.framesOf at h
      rw [List.foldl_map] at h
      exact h

/-- C4 counterexample: for the listing `c111111111.obj`, `c999999999.obj`
the parsed frame numbers are 111111111 and 999999999, both above the
`startFrame = 100000000` sentinel, so the script keeps the sentinel: the
returned `startFrame` is not the minimum of the parsed integers (it is not
even one of them). -/
theorem AssembleScenes.start_frame_sentinel_counterexample :
    AssembleScenes.inferDirMeta ["c111111111.obj".data, "c999999999.obj".data]
        100000000 (-1)
        = .ok ("c".data, ".obj".data, 100000000, 999999999) ∧
      AssembleScenes.framesOf ["c111111111.obj".data, "c999999999.obj".data]
        = [111111111, 999999999] ∧
      (100000000 : ℤ) ∉ ([111111111, 999999999] : List ℤ) := by
  refine ⟨by decide, by decide, by decide⟩

/-- Witness for the amended C4 theorem at the concrete listing
`cloth001.obj`, `cloth002.obj` (common prefix `cloth00`, common suffix
`.obj`, frames 1 and 2). -/
theorem AssembleScenes.affix_inference_spec_witness :
    (∀ n ∈ ["cloth001.obj".data, "cloth002.obj".data],
      ∃ t, AssembleScenes.commonPre ["cloth001.obj".data, "cloth002.obj".data] ++ t = n) ∧
    (∀ p, (∀ n ∈ ["cloth001.obj".data, "cloth002.obj".data], ∃ t, p ++ t = n) →
      ∃ t, p ++ t = AssembleScenes.commonPre ["cloth001.obj".data, "cloth002.obj".data]) ∧
    (∀ n ∈ ["cloth001.obj".data, "cloth002.obj".data],
      ∃ t, n = t ++ AssembleScenes.commonSuf ["cloth001.obj".data, "cloth002.obj".data]) ∧
    (∀ s, (∀ n ∈ ["cloth001.obj".data, "cloth002.obj".data], ∃ t, n = t ++ s) →
      ∃ t, AssembleScenes.commonSuf ["cloth001.obj".data, "cloth002.obj".data] = t ++ s) ∧
    ∃ sF eF,
      AssembleScenes.inferDirMeta ["cloth001.obj".data, "cloth002.obj".data]
          100000000 (-1)
        = .ok (AssembleScenes.commonPre ["cloth001.obj".data, "cloth002.obj".data],
            AssembleScenes.commonSuf ["cloth001.obj".data, "cloth002.obj".data], sF, eF) ∧
      sF ≤ 100000000 ∧
      (∀ fr ∈ AssembleScenes.framesOf ["cloth001.obj".data, "cloth002.obj".data], sF ≤ fr) ∧
      (sF = 100000000 ∨
        sF ∈ AssembleScenes.framesOf ["cloth001.obj".data, "cloth002.obj".data]) ∧
      eF ∈ AssembleScenes.framesOf ["cloth001.obj".data, "cloth002.obj".data] ∧
      ∀ fr ∈ AssembleScenes.framesOf ["cloth001.obj".data, "cloth002.obj".data], fr ≤ eF :=
  AssembleScenes.affix_inference_spec ["cloth001.obj".data, "cloth002.obj".data]
    (by decide) (by decide)

theorem ImageSequenceToVideo.writeFrames_some (imread : List Char → Option ImageSequenceToVideo.Image)
    (base : List Char) (fs : List (List Char))
    (h : ∀ f ∈ fs, (imread (pathJoin base f)).isSome = true) :
    ∀ wr : ImageSequenceToVideo.Writer,
      ImageSequenceToVideo.writeFrames imread base fs (some wr)
        = .ok (some ⟨wr.fps, wr.resolution,
            wr.frames ++ fs.map (fun f => (imread (pathJoin base f)).getD ⟨0, 0⟩)⟩) := by
  induction fs with
  | nil => intro wr; simp [writeFrames]
  | cons f fs' ih =>
    intro wr
    obtain ⟨i, hi⟩ := Option.isSome_iff_exists.mp (h f (by simp))
    show (match imread (pathJoin base f) with
      | none => Except.error PyErr.typeError
      | some frame =>
        writeFrames imread base fs' (some ⟨wr.fps, wr.resolution, wr.frames ++ [frame]⟩)) = _
    rw [hi]
    show writeFrames imread base fs' (some ⟨wr.fps, wr.resolution, wr.frames ++ [i]⟩) = _
    rw [ih (fun g hg => h g (by simp [hg]))]
    simp [hi]

theorem ImageSequenceToVideo.writeFrames_none (imread : List Char → Option ImageSequenceToVideo.Image)
    (base : List Char) (f : List Char) (fs : List (List Char))
    (h : ∀ g ∈ f :: fs, (imread (pathJoin base g)).isSome = true) :
    ImageSequenceToVideo.writeFrames imread base (f :: fs) none
      = .ok (some ⟨30,
          (((imread (pathJoin base f)).getD ⟨0, 0⟩).width,
            ((imread (pathJoin base f)).getD ⟨0, 0⟩).height),
          (f :: fs).map (fun g => (imread (pathJoin base g)).getD ⟨0, 0⟩)⟩) := by
  obtain ⟨i, hi⟩ := Option.isSome_iff_exists.mp (h f (by simp))
  show (match imread (pathJoin base f) with
    | none => Except.error PyErr.attributeError
    | some img =>
      match imread (pathJoin base f) with
      | none => Except.error PyErr.typeError
      | some frame =>
        writeFrames imread base fs (some ⟨30, (img.width, img.height), [frame]⟩)) = _
  rw [hi]
  show writeFrames imread base fs (some ⟨30, (i.width, i.height), [i]⟩) = _
  rw [writeFrames_some imread base fs (fun g hg => h g (by simp [hg]))]
  simp [hi]

theorem ImageSequenceToVideo.videoLoop_some (imread : List Char → Option ImageSequenceToVideo.Image)
    (base : List Char) :
    ∀ (walk : List (List Char × List (List Char))),
      (∀ f ∈ (walk.map Prod.snd).flatten, (imread (pathJoin base f)).isSome = true) →
      ∀ wr : ImageSequenceToVideo.Writer,
        ImageSequenceToVideo.videoLoop imread base walk (some wr)
          = .ok (some ⟨wr.fps, wr.resolution,
              wr.frames ++ ((walk.map Prod.snd).flatten).map
                (fun f => (imread (pathJoin base f)).getD ⟨0, 0⟩)⟩) := by
  intro walk
  induction walk with
  | nil => intro _ wr; simp [videoLoop]
  | cons entry rest ih =>
    intro h wr
    obtain ⟨root, fs⟩ := entry
    have hfs : ∀ f ∈ fs, (imread (pathJoin base f)).isSome = true := by
      intro f hf
      exact h f (by simp [hf])
    show (match writeFrames imread base fs (some wr) with
      | Except.error err => Except.error err
      | Except.ok w2 => videoLoop imread base rest w2) = _
    rw [writeFrames_some imread base fs hfs wr]
    show videoLoop imread base rest _ = _
    rw [ih (fun f hf => h f (by simp [hf]))]
    simp [List.append_assoc]

theorem ImageSequenceToVideo.videoLoop_none_run
    (imread : List Char → Option ImageSequenceToVideo.Image) (base : List Char) :
    ∀ (walk : List (List Char × List (List Char))),
      (∀ f ∈ (walk.map Prod.snd).flatten, (imread (pathJoin base f)).isSome = true) →
      ∀ (f0 : List Char) (rest : List (List Char)),
        (walk.map Prod.snd).flatten = f0 :: rest →
        ImageSequenceToVideo.videoLoop imread base walk none
          = .ok (some ⟨30,
              (((imread (pathJoin base f0)).getD ⟨0, 0⟩).width,
                ((imread (pathJoin base f0)).getD ⟨0, 0⟩).height),
              (f0 :: rest).map (fun g => (imread (pathJoin base g)).getD ⟨0, 0⟩)⟩) := by
  intro walk
  induction walk with
  | nil => intro _ f0 rest hf; simp at hf
  | cons entry tail ih =>
    intro h f0 rest hf
    obtain ⟨root, fs⟩ := entry
    cases fs with
    | nil =>
      show (match writeFrames imread base [] none with
        | Except.error err => Except.error err
        | Except.ok w2 => videoLoop imread base tail w2) = _
      show videoLoop imread base tail none = _
      simp only [List.map_cons, List.flatten_cons, List.nil_append] at hf h
      exact ih h f0 rest hf
    | cons g gs =>
      simp only [List.map_cons, List.flatten_cons, List.cons_append] at hf h
      have hgl : ∀ x ∈ g :: gs, (imread (pathJoin base x)).isSome = true := by
        intro x hx
        rcases List.mem_cons.mp hx with rfl | hx'
        · exact h x (by simp)
        · exact h x (by simp [hx'])
      obtain ⟨rfl, hrest⟩ : g = f0 ∧ gs ++ (tail.map Prod.snd).flatten = rest :=
        ⟨by injection hf, by injection hf⟩
      show (match writeFrames imread base (g :: gs) none with
        | Except.error err => Except.error err
        | Except.ok w2 => videoLoop imread base tail w2) = _
      rw [writeFrames_none imread base g gs hgl]
      show videoLoop imread base tail _ = _
      rw [videoLoop_some imread base tail (fun f hfm => h f (by simp [hfm]))]
      rw [← hrest]
      simp [List.append_assoc]

/-- C6: with every file under the image directory readable as an image
(and at least one file present), the script writes exactly one video
frame per file, in `os.walk` order, into a single writer created once
with a fixed frame rate of 30 fps and the `(width, height)` of the first
listed image; no file is skipped or written twice.  (Files in
subdirectories are still read relative to `base`, faithful to the
script's `os.path.join(base, f)`.) -/
theorem ImageSequenceToVideo.video_script_spec
    (imread : List Char → Option ImageSequenceToVideo.Image) (base : List Char)
    (walk : List (List Char × List (List Char)))
    (himg : ∀ f ∈ (walk.map Prod.snd).flatten, (imread (pathJoin base f)).isSome = true)
    (hne : (walk.map Prod.snd).flatten ≠ []) :
    ∃ w, ImageSequenceToVideo.videoScript imread base walk = .ok w ∧
      w.fps = 30 ∧
      (∃ i0, imread (pathJoin base (((walk.map Prod.snd).flatten).headD [])) = some i0 ∧
        w.resolution = (i0.width, i0.height)) ∧
      w.frames = ((walk.map Prod.snd).flatten).map
        (fun f => (imread (pathJoin base f)).getD ⟨0, 0⟩) ∧
      w.frames.length = ((walk.map Prod.snd).flatten).length := by
  obtain ⟨f0, rest, hf⟩ : ∃ f0 rest, (walk.map Prod.snd).flatten = f0 :: rest := by
    cases hflat : (walk.map Prod.snd).flatten with
    | nil => exact absurd hflat hne
    | cons a b => exact ⟨a, b, rfl⟩
  have hrun := videoLoop_none_run imread base walk himg f0 rest hf
  obtain ⟨i0, hi0⟩ := Option.isSome_iff_exists.mp (himg f0 (by rw [hf]; simp))
  refine ⟨⟨30, (((imread (pathJoin base f0)).getD ⟨0, 0⟩).width,
      ((imread (pathJoin base f0)).getD ⟨0, 0⟩).height),
      (f0 :: rest).map (fun g => (imread (pathJoin base g)).getD ⟨0, 0⟩)⟩,
    ?_, rfl, ⟨i0, ?_, ?_⟩, ?_, ?_⟩
  · unfold videoScript
    rw [hrun]
  · rw [hf]
    simpa using hi0
  · simp [hi0]
  · rw [hf]
  · rw [hf]
    simp

/-- Witness for C6 at a concrete walk of one directory holding `a.png`
and `b.png`, both readable as 640x480 images. -/
theorem ImageSequenceToVideo.video_script_spec_witness :
    ∃ w, ImageSequenceToVideo.videoScript ImageSequenceToVideo.demoRead "imgs".data
        [("imgs".data, ["a.png".data, "b.png".data])] = .ok w ∧
      w.fps = 30 ∧
      (∃ i0, ImageSequenceToVideo.demoRead
          (pathJoin "imgs".data
            ((([("imgs".data, ["a.png".data, "b.png".data])].map
              Prod.snd).flatten).headD [])) = some i0 ∧
        w.resolution = (i0.width, i0.height)) ∧
      w.frames = ((([("imgs".data, ["a.png".data, "b.png".data])].map
          Prod.snd).flatten)).map
        (fun f => (ImageSequenceToVideo.demoRead (pathJoin "imgs".data f)).getD ⟨0, 0⟩) ∧
      w.frames.length = ((([("imgs".data, ["a.png".data, "b.png".data])].map
        Prod.snd).flatten)).length :=
  ImageSequenceToVideo.video_script_spec ImageSequenceToVideo.demoRead "imgs".data
    [("imgs".data, ["a.png".data, "b.png".data])] (by decide) (by decide)


theorem range_succ_map {α : Type} (F : Nat → α) (g : Nat) :
    (List.range (g + 1)).map F = F 0 :: (List.range g).map (fun k => F (k + 1)) := by
  rw [List.range_succ_eq_map]
  simp only [List.map_cons, List.map_map]
  refine congrArg (List.cons (F 0)) (List.map_congr_left ?_)
  intro x _
  rfl

theorem SaveObjSequence.innerLoop_ok (output_dir out_pre : List Char) (digits : Nat)
    (p : ℤ) (compress : Bool) (frame : ℤ) (hp : ¬p = 0) :
    ∀ (g j index : Nat),
      SaveObjSequence.innerLoop output_dir out_pre digits p compress frame
          ((List.range g).map (j + ·)) index
        = .ok ((List.range g).map (fun k =>
            ((frame : ℚ) + (((j + k : Nat)) : ℚ) / (p : ℚ),
             pathJoin output_dir (out_pre ++ zfill digits (natRepr (index + k)) ++ ".obj".data),
             SaveObjSequence.exportOptions compress)), index + g) := by
  intro g
  induction g with
  | zero => intro j index; rfl
  | succ g ih =>
    intro j index
    have hshape : (List.range (g + 1)).map (j + ·)
        = (j + 0) :: (List.range g).map (fun k => j + (k + 1)) := range_succ_map (j + ·) (g)
    rw [hshape]
    show (if p = 0 then Except.error PyErr.zeroDivisionError
      else match innerLoop output_dir out_pre digits p compress frame
          ((List.range g).map (fun k => j + (k + 1))) (index + 1) with
        | Except.error err => Except.error err
        | Except.ok (ws, idx2) =>
          Except.ok (((frame : ℚ) + ((j + 0 : Nat) : ℚ) / (p : ℚ),
            pathJoin output_dir (out_pre ++ zfill digits (natRepr index) ++ ".obj".data),
            exportOptions compress) :: ws, idx2)) = _
    rw [if_neg hp]
    have hmap : (List.range g).map (fun k => j + (k + 1))
        = (List.range g).map ((j + 1) + ·) := by
      refine List.map_congr_left ?_
      intro x _
      omega
    rw [hmap, ih (j + 1) (index + 1)]
    rw [range_succ_map (fun k =>
      ((frame : ℚ) + (((j + k : Nat)) : ℚ) / (p : ℚ),
       pathJoin output_dir (out_pre ++ zfill digits (natRepr (index + k)) ++ ".obj".data),
       SaveObjSequence.exportOptions compress)) g]
    show Except.ok (((frame : ℚ) + ((j + 0 : Nat) : ℚ) / (p : ℚ), _, _) :: _, _)
      = Except.ok (((frame : ℚ) + ((j + 0 : Nat) : ℚ) / (p : ℚ), _, _) :: _, index + (g + 1))
    refine congrArg Except.ok ?_
    refine congrArg₂ Prod.mk (congrArg₂ List.cons ?_ ?_) (by omega)
    · have h0 : index + 0 = index := by omega
      rw [h0]
    · refine List.map_congr_left ?_
      intro k _
      have h1 : (j + 1) + k = j + (k + 1) := by omega
      have h2 : (index + 1) + k = index + (k + 1) := by omega
      rw [h1, h2]


theorem SaveObjSequence.innerLoop_range (output_dir out_pre : List Char) (digits : Nat)
    (p : ℤ) (compress : Bool) (frame : ℤ) (hp : ¬p = 0) (g index : Nat) :
    SaveObjSequence.innerLoop output_dir out_pre digits p compress frame
        (List.range g) index
      = .ok ((List.range g).map (fun (k : Nat) =>
          ((frame : ℚ) + (k : ℚ) / (p : ℚ),
           pathJoin output_dir (out_pre ++ zfill digits (natRepr (index + k)) ++ ".obj".data),
           SaveObjSequence.exportOptions compress)), index + g) := by
  have h0 : (List.range g).map ((0 : Nat) + ·) = List.range g := by
    simp
  have hmain := innerLoop_ok output_dir out_pre digits p compress frame hp g 0 index
  rw [h0] at hmain
  rw [hmain]
  refine congrArg Except.ok (congrArg₂ Prod.mk (List.map_congr_left ?_) rfl)
  intro k _
  have hz : (0 : Nat) + k = k := Nat.zero_add k
  rw [hz]

theorem SaveObjSequence.outerLoop_ok (output_dir out_pre : List Char) (digits : Nat)
    (p : ℤ) (compress : Bool) (g : Nat) (hp : ¬p = 0) :
    ∀ (n : Nat) (s : ℤ) (index : Nat),
      SaveObjSequence.outerLoop output_dir out_pre digits p compress (some g)
          ((List.range n).map (fun (k : Nat) => s + (k : ℤ))) index
        = .ok (((List.range n).map (fun (k : Nat) =>
            (List.range g).map (fun (i : Nat) =>
              ((((s + (k : ℤ) : ℤ)) : ℚ) + (i : ℚ) / (p : ℚ),
               pathJoin output_dir
                 (out_pre ++ zfill digits (natRepr (index + (k * g + i))) ++ ".obj".data),
               SaveObjSequence.exportOptions compress)))).flatten) := by
  intro n
  induction n with
  | zero => intro s index; rfl
  | succ n ih =>
    intro s index
    rw [range_succ_map (fun (k : Nat) => s + (k : ℤ)) n]
    show (match innerLoop output_dir out_pre digits p compress (s + ((0 : Nat) : ℤ))
        (List.range g) index with
      | Except.error err => Except.error err
      | Except.ok (ws, idx2) =>
        match outerLoop output_dir out_pre digits p compress (some g)
            ((List.range n).map (fun (k : Nat) => s + ((k + 1 : Nat) : ℤ))) idx2 with
        | Except.error err => Except.error err
        | Except.ok ws2 => Except.ok (ws ++ ws2)) = _
    rw [innerLoop_range output_dir out_pre digits p compress (s + ((0 : Nat) : ℤ)) hp g index]
    show (match outerLoop output_dir out_pre digits p compress (some g)
        ((List.range n).map (fun (k : Nat) => s + ((k + 1 : Nat) : ℤ))) (index + g) with
      | Except.error err => Except.error err
      | Except.ok ws2 =>
        Except.ok ((List.range g).map (fun (k : Nat) =>
          ((((s + ((0 : Nat) : ℤ) : ℤ)) : ℚ) + (k : ℚ) / (p : ℚ),
           pathJoin output_dir (out_pre ++ zfill digits (natRepr (index + k)) ++ ".obj".data),
           SaveObjSequence.exportOptions compress)) ++ ws2)) = _
    have hmap : (List.range n).map (fun (k : Nat) => s + ((k + 1 : Nat) : ℤ))
        = (List.range n).map (fun (k : Nat) => (s + 1) + (k : ℤ)) := by
      refine List.map_congr_left ?_
      intro x _
      push_cast
      ring
    rw [hmap, ih (s + 1) (index + g)]
    show Except.ok ((List.range g).map (fun (k : Nat) =>
        ((((s + ((0 : Nat) : ℤ) : ℤ)) : ℚ) + (k : ℚ) / (p : ℚ),
         pathJoin output_dir (out_pre ++ zfill digits (natRepr (index + k)) ++ ".obj".data),
         SaveObjSequence.exportOptions compress))
      ++ ((List.range n).map (fun (k : Nat) =>
        (List.range g).map (fun (i : Nat) =>
          (((((s + 1) + (k : ℤ) : ℤ)) : ℚ) + (i : ℚ) / (p : ℚ),
           pathJoin output_dir
             (out_pre ++ zfill digits (natRepr ((index + g) + (k * g + i))) ++ ".obj".data),
           SaveObjSequence.exportOptions compress)))).flatten) = _
    rw [range_succ_map (fun (k : Nat) =>
      (List.range g).map (fun (i : Nat) =>
        ((((s + (k : ℤ) : ℤ)) : ℚ) + (i : ℚ) / (p : ℚ),
         pathJoin output_dir
           (out_pre ++ zfill digits (natRepr (index + (k * g + i))) ++ ".obj".data),
         SaveObjSequence.exportOptions compress))) n]
    rw [List.flatten_cons]
    refine congrArg Except.ok (congrArg₂ List.append ?_ ?_)
    · refine List.map_congr_left ?_
      intro i _
      have h1 : index + (0 * g + i) = index + i := by omega
      rw [h1]
    · refine congrArg List.flatten (List.map_congr_left ?_)
      intro k _
      refine List.map_congr_left ?_
      intro i _
      have h1 : (s + 1) + (k : ℤ) = s + ((k + 1 : Nat) : ℤ) := by
        push_cast
        ring
      have h2 : (index + g) + (k * g + i) = index + ((k + 1) * g + i) := by
        have h3 : (k + 1) * g = k * g + g := by ring
        omega
      rw [h1, h2]

theorem flatten_range_mul {α : Type} :
    ∀ (n : Nat) (F : Nat → α) (g : Nat),
      ((List.range n).map (fun k => (List.range g).map (fun i => F (k * g + i)))).flatten
        = (List.range (n * g)).map F := by
  intro n
  induction n with
  | zero => intro F g; simp
  | succ n ih =>
    intro F g
    rw [range_succ_map (fun k => (List.range g).map (fun i => F (k * g + i))) n,
      List.flatten_cons]
    have h0 : (List.range g).map (fun i => F (0 * g + i)) = (List.range g).map F := by
      refine List.map_congr_left ?_
      intro i _
      have hz : 0 * g + i = i := by omega
      rw [hz]
    have hsh : (List.range n).map (fun k => (List.range g).map (fun i => F ((k + 1) * g + i)))
        = (List.range n).map (fun k =>
            (List.range g).map (fun i => (fun x => F (g + x)) (k * g + i))) := by
      refine List.map_congr_left ?_
      intro k _
      refine List.map_congr_left ?_
      intro i _
      have hz : (k + 1) * g + i = g + (k * g + i) := by
        have : (k + 1) * g = k * g + g := by ring
        omega
      rw [hz]
    rw [h0, hsh, ih (fun x => F (g + x)) g]
    have hr : List.range ((n + 1) * g) = List.range (g + n * g) := by
      have : (n + 1) * g = g + n * g := by ring
      rw [this]
    rw [hr, List.range_add, List.map_append, List.map_map]
    rfl

/-- C10 (amended): for every call that iterates at least one frame
(`start_frame ≤ end_frame`), `save_objs` raises `NameError` whenever the
module global `save_per_frame` is undefined, regardless of the
`save_pre_frame` argument; when the global holds `g` and the
`save_pre_frame` parameter `p` is non-zero, exactly `g` files are written
per frame (`g * (end_frame+1-start_frame)` in total), the filenames
`output_prefix + str(index).zfill(digits) + ".obj"` are numbered by the
running index and do not depend on `p`, and `p` only enters the fractional
time offset `frame + i / p` passed to `currentTime`. -/
theorem SaveObjSequence.save_objs_spec
    (output_dir out_pre : List Char) (digits : Nat) (start_frame end_frame : ℤ)
    (compress : Bool) (hle : start_frame ≤ end_frame) :
    (∀ p : ℤ, SaveObjSequence.save_objs output_dir out_pre digits start_frame end_frame
        p compress none = .error .nameError) ∧
    ∀ (g : Nat) (p : ℤ), ¬p = 0 →
      ∃ ws, SaveObjSequence.save_objs output_dir out_pre digits start_frame end_frame
          p compress (some g) = .ok ws ∧
        ws = ((List.range (end_frame + 1 - start_frame).toNat).map (fun (k : Nat) =>
            (List.range g).map (fun (i : Nat) =>
              ((((start_frame + (k : ℤ) : ℤ)) : ℚ) + (i : ℚ) / (p : ℚ),
               pathJoin output_dir
                 (out_pre ++ zfill digits (natRepr (k * g + i)) ++ ".obj".data),
               SaveObjSequence.exportOptions compress)))).flatten ∧
        ws.map (fun w => w.2.1)
          = (List.range ((end_frame + 1 - start_frame).toNat * g)).map
              (fun idx => pathJoin output_dir
                (out_pre ++ zfill digits (natRepr idx) ++ ".obj".data)) ∧
        ws.length = (end_frame + 1 - start_frame).toNat * g := by
  have hn : 0 < (end_frame + 1 - start_frame).toNat := by
    rw [show (0 : Nat) < (end_frame + 1 - start_frame).toNat ↔
        ((0 : Nat) : ℤ) < end_frame + 1 - start_frame from Int.lt_toNat]
    omega
  constructor
  · intro p
    unfold save_objs
    obtain ⟨f0, rest, hfr⟩ : ∃ f0 rest,
        SaveObjSequence.intRangeZ start_frame (end_frame + 1) = f0 :: rest := by
      cases hcase : SaveObjSequence.intRangeZ start_frame (end_frame + 1) with
      | nil =>
        have := congrArg List.length hcase
        simp [intRangeZ] at this
        omega
      | cons a b => exact ⟨a, b, rfl⟩
    rw [hfr]
    rfl
  · intro g p hp
    have hrun := outerLoop_ok output_dir out_pre digits p compress g hp
      (end_frame + 1 - start_frame).toNat start_frame 0
    have hint : SaveObjSequence.intRangeZ start_frame (end_frame + 1)
        = (List.range (end_frame + 1 - start_frame).toNat).map
            (fun (k : Nat) => start_frame + (k : ℤ)) := rfl
    have hws_eq : ((List.range (end_frame + 1 - start_frame).toNat).map (fun (k : Nat) =>
        (List.range g).map (fun (i : Nat) =>
          ((((start_frame + (k : ℤ) : ℤ)) : ℚ) + (i : ℚ) / (p : ℚ),
           pathJoin output_dir
             (out_pre ++ zfill digits (natRepr (0 + (k * g + i))) ++ ".obj".data),
           SaveObjSequence.exportOptions compress)))).flatten
        = ((List.range (end_frame + 1 - start_frame).toNat).map (fun (k : Nat) =>
        (List.range g).map (fun (i : Nat) =>
          ((((start_frame + (k : ℤ) : ℤ)) : ℚ) + (i : ℚ) / (p : ℚ),
           pathJoin output_dir
             (out_pre ++ zfill digits (natRepr (k * g + i)) ++ ".obj".data),
           SaveObjSequence.exportOptions compress)))).flatten := by
      refine congrArg List.flatten (List.map_congr_left ?_)
      intro k _
      refine List.map_congr_left ?_
      intro i _
      have hz : 0 + (k * g + i) = k * g + i := by omega
      rw [hz]
    have hpaths : (((List.range (end_frame + 1 - start_frame).toNat).map (fun (k : Nat) =>
        (List.range g).map (fun (i : Nat) =>
          ((((start_frame + (k : ℤ) : ℤ)) : ℚ) + (i : ℚ) / (p : ℚ),
           pathJoin output_dir
             (out_pre ++ zfill digits (natRepr (k * g + i)) ++ ".obj".data),
           SaveObjSequence.exportOptions compress)))).flatten).map (fun w => w.2.1)
        = (List.range ((end_frame + 1 - start_frame).toNat * g)).map
            (fun idx => pathJoin output_dir
              (out_pre ++ zfill digits (natRepr idx) ++ ".obj".data)) := by
      rw [List.map_flatten, List.map_map]
      have hinner : ((List.range (end_frame + 1 - start_frame).toNat).map
          ((List.map (fun (w : ℚ × List Char × List Char) => w.2.1)) ∘ (fun (k : Nat) =>
            (List.range g).map (fun (i : Nat) =>
              ((((start_frame + (k : ℤ) : ℤ)) : ℚ) + (i : ℚ) / (p : ℚ),
               pathJoin output_dir
                 (out_pre ++ zfill digits (natRepr (k * g + i)) ++ ".obj".data),
               SaveObjSequence.exportOptions compress)))))
          = (List.range (end_frame + 1 - start_frame).toNat).map (fun (k : Nat) =>
              (List.range g).map (fun (i : Nat) =>
                pathJoin output_dir
                  (out_pre ++ zfill digits (natRepr (k * g + i)) ++ ".obj".data))) := by
        refine List.map_congr_left ?_
        intro k _
        show ((List.range g).map _).map _ = _
        rw [List.map_map]
        rfl
      rw [hinner]
      exact flatten_range_mul (end_frame + 1 - start_frame).toNat
        (fun idx => pathJoin output_dir
          (out_pre ++ zfill digits (natRepr idx) ++ ".obj".data)) g
    have hlen := congrArg List.length hpaths
    rw [List.length_map, List.length_map, List.length_range] at hlen
    refine ⟨_, ?_, hws_eq.symm ▸ rfl, hpaths, hlen⟩
    unfold save_objs
    rw [hint, hrun]
    exact congrArg Except.ok hws_eq

/-- C10 counterexample: a call with `start_frame = 1 > 0 = end_frame`
iterates no frame at all, so even with the module global undefined the
function returns normally (an empty write list) instead of raising the
claimed `NameError`. -/
theorem SaveObjSequence.save_objs_empty_range_counterexample :
    SaveObjSequence.save_objs "d".data "body".data 4 1 0 2 true none = .ok [] ∧
      SaveObjSequence.save_objs "d".data "body".data 4 1 0 2 true none
        ≠ .error .nameError := by
  constructor
  · rfl
  · decide

/-- Witness for the amended C10 theorem at a concrete call: frames 0..1,
undefined global raises `NameError` (for `save_pre_frame = 2`); with the
global set to 0 the call writes 0 files per frame. -/
theorem SaveObjSequence.save_objs_spec_witness :
    SaveObjSequence.save_objs "d".data "body".data 4 0 1 2 true none
        = .error .nameError ∧
      ∃ ws, SaveObjSequence.save_objs "d".data "body".data 4 0 1 2 true (some 0)
          = .ok ws ∧ ws.length = 0 := by
  obtain ⟨hA, hB⟩ := SaveObjSequence.save_objs_spec "d".data "body".data 4 0 1 true
    (by decide)
  refine ⟨hA 2, ?_⟩
  obtain ⟨ws, h1, _h2, _h3, h4⟩ := hB 0 2 (by decide)
  exact ⟨ws, h1, h4.trans (by decide)⟩

theorem BackgroundRender.intRange_length (a b : Nat) :
    (BackgroundRender.intRange a b).length = b - a := by
  unfold intRange
  rw [List.length_map, List.length_range]

theorem BackgroundRender.mem_intRange (a b x : Nat) :
    x ∈ BackgroundRender.intRange a b ↔ a ≤ x ∧ x < b := by
  unfold intRange
  rw [List.mem_map]
  constructor
  · rintro ⟨k, hk, rfl⟩
    rw [List.mem_range] at hk
    omega
  · rintro ⟨h1, h2⟩
    exact ⟨x - a, by rw [List.mem_range]; omega, by omega⟩

theorem BackgroundRender.intRange_append (a b c : Nat) (hab : a ≤ b) (hbc : b ≤ c) :
    BackgroundRender.intRange a b ++ BackgroundRender.intRange b c
      = BackgroundRender.intRange a c := by
  unfold intRange
  have hsplit : c - a = (b - a) + (c - b) := by omega
  rw [hsplit, List.range_add, List.map_append, List.map_map]
  refine congrArg (List.append _) (List.map_congr_left ?_)
  intro x _
  show b + x = a + ((b - a) + x)
  omega

theorem BackgroundRender.ceil_facts (n N : Nat) (hN : 0 < N) :
    n ≤ ((n + N - 1) / N) * N ∧
      ∀ M, M < (n + N - 1) / N → M * N < n := by
  have hdm := Nat.div_add_mod (n + N - 1) N
  have hmod : (n + N - 1) % N < N := Nat.mod_lt _ hN
  constructor
  · have h1 : ((n + N - 1) / N) * N = N * ((n + N - 1) / N) := Nat.mul_comm _ _
    omega
  · intro M hM
    have h1 : M + 1 ≤ (n + N - 1) / N := hM
    have h2 : (M + 1) * N ≤ ((n + N - 1) / N) * N := Nat.mul_le_mul_right N h1
    rw [Nat.succ_mul] at h2
    have h3 : ((n + N - 1) / N) * N = N * ((n + N - 1) / N) := Nat.mul_comm _ _
    omega

theorem BackgroundRender.subarrays_chunk (n N k : Nat) (arr : List Nat)
    (h : (BackgroundRender.subarrays n N)[k]? = some arr) :
    k < (n + N - 1) / N ∧
      arr = BackgroundRender.intRange (k * N) (min (k * N + N) n) := by
  unfold subarrays at h
  rw [List.getElem?_map] at h
  cases hr : (List.range ((n + N - 1) / N))[k]? with
  | none => rw [hr] at h; cases h
  | some v =>
    rw [hr] at h
    have hk : k < (n + N - 1) / N := by
      by_contra hcon
      rw [List.getElem?_eq_none (by rw [List.length_range]; omega)] at hr
      cases hr
    have hv : v = k := by
      have := List.getElem?_range hk
      rw [hr] at this
      injection this
    subst hv
    rw [Option.map_some'] at h
    exact ⟨hk, (Option.some.injEq _ _).mp h.symm⟩

theorem BackgroundRender.flatten_chunks (n N : Nat) (hN : 0 < N) :
    ∀ M, ((List.range M).map
        (fun (k : Nat) => BackgroundRender.intRange (k * N) (min (k * N + N) n))).flatten
      = BackgroundRender.intRange 0 (min (M * N) n) := by
  intro M
  induction M with
  | zero =>
    have h0 : min (0 * N) n = 0 := by
      have hz : 0 * N = 0 := Nat.zero_mul N
      omega
    rw [h0]
    simp [intRange]
  | succ M ih =>
    rw [show List.range (M + 1) = List.range M ++ [M] from List.range_succ M,
      List.map_append, List.flatten_append, ih]
    show intRange 0 (min (M * N) n) ++ (intRange (M * N) (min (M * N + N) n) ++ []) = _
    rw [List.append_nil]
    by_cases hc : M * N < n
    · have h1 : min (M * N) n = M * N := by omega
      have h2 : min ((M + 1) * N) n = min (M * N + N) n := by
        have hsm : (M + 1) * N = M * N + N := by ring
        omega
      rw [h1, h2]
      exact intRange_append 0 (M * N) (min (M * N + N) n) (by omega) (by omega)
    · have h1 : min (M * N) n = n := by omega
      have h2 : intRange (M * N) (min (M * N + N) n) = [] := by
        have hz : min (M * N + N) n - M * N = 0 := by omega
        unfold intRange
        rw [hz]
        rfl
      have h3 : min ((M + 1) * N) n = n := by
        have hsm : (M + 1) * N = M * N + N := by ring
        omega
      rw [h1, h2, h3, List.append_nil]

theorem BackgroundRender.intRange_zero (n : Nat) :
    BackgroundRender.intRange 0 n = List.range n := by
  unfold intRange
  have hz : n - 0 = n := by omega
  rw [hz]
  refine Eq.trans (List.map_congr_left ?_) (List.map_id _)
  intro x _
  simp

theorem BackgroundRender.subarrays_flatten (n N : Nat) (hN : 0 < N) :
    (BackgroundRender.subarrays n N).flatten = List.range n := by
  unfold subarrays
  rw [flatten_chunks n N hN]
  have h1 : min (((n + N - 1) / N) * N) n = n := by
    have := (ceil_facts n N hN).1
    omega
  rw [h1, intRange_zero]

theorem BackgroundRender.subarrays_take_flatten (n N m : Nat) (hN : 0 < N) :
    (((BackgroundRender.subarrays n N).take m)).flatten
      = BackgroundRender.intRange 0 (min ((min m ((n + N - 1) / N)) * N) n) := by
  unfold subarrays
  rw [← List.map_take, List.take_range, flatten_chunks n N hN]

theorem BackgroundRender.filterMap_starts_pairs (cmds : List (List Char)) (arr : List Nat) :
    ((arr.map (fun i => [BackgroundRender.Event.started i (cmds.getD i []),
        BackgroundRender.Event.slept 1])).flatten).filterMap
        (fun e => match e with
          | BackgroundRender.Event.started i c => some (i, c)
          | _ => none)
      = arr.map (fun i => (i, cmds.getD i [])) := by
  induction arr with
  | nil => rfl
  | cons i is ih =>
    show ((BackgroundRender.Event.started i (cmds.getD i []) :: BackgroundRender.Event.slept 1 ::
        ((is.map (fun i => [BackgroundRender.Event.started i (cmds.getD i []),
          BackgroundRender.Event.slept 1])).flatten))).filterMap _ = _
    rw [List.filterMap_cons, List.filterMap_cons]
    simp only []
    rw [ih]
    rfl

theorem BackgroundRender.filterMap_starts_joined (l : List Nat) :
    (l.map BackgroundRender.Event.joined).filterMap
        (fun e => match e with
          | BackgroundRender.Event.started i c => some (i, c)
          | _ => none)
      = [] := by
  induction l with
  | nil => rfl
  | cons x xs ih =>
    rw [List.map_cons, List.filterMap_cons]
    exact ih

theorem BackgroundRender.renderLoop_starts (cmds : List (List Char)) :
    ∀ (batches : List (List Nat)) (threads : List Nat),
      (BackgroundRender.renderLoop cmds batches threads).filterMap
          (fun e => match e with
            | BackgroundRender.Event.started i c => some (i, c)
            | _ => none)
        = batches.flatten.map (fun i => (i, cmds.getD i [])) := by
  intro batches
  induction batches with
  | nil => intro threads; rfl
  | cons arr rest ih =>
    intro threads
    show (((arr.map (fun i => [BackgroundRender.Event.started i (cmds.getD i []),
          BackgroundRender.Event.slept 1])).flatten
        ++ ((threads ++ arr).map BackgroundRender.Event.joined)
        ++ BackgroundRender.renderLoop cmds rest (threads ++ arr))).filterMap _ = _
    rw [List.filterMap_append, List.filterMap_append, ih (threads ++ arr),
      filterMap_starts_pairs, filterMap_starts_joined]
    rw [List.flatten_cons, List.map_append, List.append_nil]

theorem BackgroundRender.filter_ss_pairs (cmds : List (List Char)) (arr : List Nat) :
    ((arr.map (fun i => [BackgroundRender.Event.started i (cmds.getD i []),
        BackgroundRender.Event.slept 1])).flatten).filter
        (fun e => match e with
          | BackgroundRender.Event.started _ _ => true
          | BackgroundRender.Event.slept _ => true
          | BackgroundRender.Event.joined _ => false)
      = (arr.map (fun i => [BackgroundRender.Event.started i (cmds.getD i []),
          BackgroundRender.Event.slept 1])).flatten := by
  rw [List.filter_eq_self]
  intro e he
  obtain ⟨l, hl, hel⟩ := List.mem_flatten.mp he
  obtain ⟨i, _, rfl⟩ := List.mem_map.mp hl
  rcases List.mem_cons.mp hel with rfl | hel'
  · rfl
  · rcases List.mem_cons.mp hel' with rfl | habs
    · rfl
    · cases habs

theorem BackgroundRender.filter_ss_joined (l : List Nat) :
    (l.map BackgroundRender.Event.joined).filter
        (fun e => match e with
          | BackgroundRender.Event.started _ _ => true
          | BackgroundRender.Event.slept _ => true
          | BackgroundRender.Event.joined _ => false)
      = [] := by
  induction l with
  | nil => rfl
  | cons x xs ih =>
    rw [List.map_cons, List.filter_cons]
    simp only [if_neg]
    exact ih

theorem BackgroundRender.renderLoop_filter_ss (cmds : List (List Char)) :
    ∀ (batches : List (List Nat)) (threads : List Nat),
      (BackgroundRender.renderLoop cmds batches threads).filter
          (fun e => match e with
            | BackgroundRender.Event.started _ _ => true
            | BackgroundRender.Event.slept _ => true
            | BackgroundRender.Event.joined _ => false)
        = (batches.flatten.map (fun i => [BackgroundRender.Event.started i (cmds.getD i []),
            BackgroundRender.Event.slept 1])).flatten := by
  intro batches
  induction batches with
  | nil => intro threads; rfl
  | cons arr rest ih =>
    intro threads
    show (((arr.map (fun i => [BackgroundRender.Event.started i (cmds.getD i []),
          BackgroundRender.Event.slept 1])).flatten
        ++ ((threads ++ arr).map BackgroundRender.Event.joined)
        ++ BackgroundRender.renderLoop cmds rest (threads ++ arr))).filter _ = _
    rw [List.filter_append, List.filter_append, ih (threads ++ arr),
      filter_ss_pairs, filter_ss_joined]
    rw [List.flatten_cons, List.map_append, List.flatten_append, List.append_nil]

theorem BackgroundRender.mem_starts_flatten (cmds : List (List Char)) (arr : List Nat)
    (j : Nat) (c : List Char)
    (h : BackgroundRender.Event.started j c
      ∈ (arr.map (fun i => [BackgroundRender.Event.started i (cmds.getD i []),
          BackgroundRender.Event.slept 1])).flatten) : j ∈ arr := by
  obtain ⟨l, hl, hel⟩ := List.mem_flatten.mp h
  obtain ⟨i, hi, rfl⟩ := List.mem_map.mp hl
  rcases List.mem_cons.mp hel with heq | hel'
  · injection heq with h1 _
    rw [h1]
    exact hi
  · rcases List.mem_cons.mp hel' with heq | habs
    · cases heq
    · cases habs

theorem BackgroundRender.started_not_mem_joined (l : List Nat) (j : Nat) (c : List Char) :
    BackgroundRender.Event.started j c ∉ l.map BackgroundRender.Event.joined := by
  intro h
  obtain ⟨x, _, hx⟩ := List.mem_map.mp h
  cases hx

theorem BackgroundRender.renderLoop_cut (cmds : List (List Char)) :
    ∀ (batches : List (List Nat)) (threads : List Nat) (k : Nat) (arr1 : List Nat),
      batches[k]? = some arr1 →
      ∃ t1 t2, BackgroundRender.renderLoop cmds batches threads = t1 ++ t2 ∧
        (∀ i ∈ arr1, BackgroundRender.Event.joined i ∈ t1) ∧
        (∀ j c, BackgroundRender.Event.started j c ∈ t1 →
          j ∈ (batches.take (k + 1)).flatten) := by
  intro batches
  induction batches with
  | nil =>
    intro threads k arr1 h
    rw [List.getElem?_nil] at h
    cases h
  | cons arr rest ih =>
    intro threads k arr1 h
    cases k with
    | zero =>
      rw [List.getElem?_cons_zero] at h
      injection h with h
      subst h
      refine ⟨(arr.map (fun i => [BackgroundRender.Event.started i (cmds.getD i []),
          BackgroundRender.Event.slept 1])).flatten
          ++ ((threads ++ arr).map BackgroundRender.Event.joined),
        BackgroundRender.renderLoop cmds rest (threads ++ arr), rfl, ?_, ?_⟩
      · intro i hi
        exact List.mem_append_right _
          (List.mem_map.mpr ⟨i, List.mem_append_right _ hi, rfl⟩)
      · intro j c hj
        have hjarr : j ∈ arr := by
          rcases List.mem_append.mp hj with hj' | hj'
          · exact mem_starts_flatten cmds arr j c hj'
          · exact absurd hj' (started_not_mem_joined _ j c)
        show j ∈ ((arr :: rest).take 1).flatten
        simp [hjarr]
    | succ k =>
      rw [List.getElem?_cons_succ] at h
      obtain ⟨t1, t2, heq, hjoin, hstart⟩ := ih (threads ++ arr) k arr1 h
      refine ⟨((arr.map (fun i => [BackgroundRender.Event.started i (cmds.getD i []),
          BackgroundRender.Event.slept 1])).flatten
          ++ ((threads ++ arr).map BackgroundRender.Event.joined)) ++ t1, t2, ?_, ?_, ?_⟩
      · show (arr.map (fun i => [BackgroundRender.Event.started i (cmds.getD i []),
            BackgroundRender.Event.slept 1])).flatten
          ++ ((threads ++ arr).map BackgroundRender.Event.joined)
          ++ BackgroundRender.renderLoop cmds rest (threads ++ arr) = _
        rw [heq, ← List.append_assoc]
      · intro i hi
        exact List.mem_append_right _ (hjoin i hi)
      · intro j c hj
        show j ∈ ((arr :: rest).take (k + 1 + 1)).flatten
        rw [List.take_succ_cons, List.flatten_cons]
        rcases List.mem_append.mp hj with hj' | hj'
        · rcases List.mem_append.mp hj' with hj'' | hj''
          · exact List.mem_append_left _ (mem_starts_flatten cmds arr j c hj'')
          · exact absurd hj'' (started_not_mem_joined _ j c)
        · exact List.mem_append_right _ (hstart j c hj')

theorem BackgroundRender.cmds_getD (exe target : List Char) (nc : Nat)
    (imageFormat : List Char) (rsp cm : Option (List Char)) (base : List Char)
    (fs : List (List Char)) (i : Nat) (hi : i < fs.length) :
    (fs.map (BackgroundRender.mkCmd exe target nc imageFormat rsp cm base)).getD i []
      = BackgroundRender.mkCmd exe target nc imageFormat rsp cm base (fs.getD i []) := by
  rw [List.getD_eq_getElem?_getD, List.getD_eq_getElem?_getD, List.getElem?_map,
    List.getElem?_eq_getElem hi]
  rfl

/-- C7: The `__main__` fan-out of src/rendering/background_render.py is a plain
fixed-size thread-per-task batch loop.  Its event trace satisfies: (a) exactly
one thread is started per scene file, in file order, each running that file's
single render command; (b) restricted to start/sleep events the trace is one
one-second sleep immediately after each start, and nothing else; (c) every batch
produced by `subarrays` holds at most `parallelThreadNum` (here `N`) task
indices; and (d) for any earlier batch and any later batch, the trace splits
into a first part in which every thread of the earlier batch has been joined
and in which no thread of the later batch has yet been started.  The event
model contains only starts, sleeps and joins, mirroring the script's only
primitives (`Thread.start`, `time.sleep(1)`, `Thread.join`): no lock, queue or
other coordination primitive occurs. -/
theorem BackgroundRender.render_trace_spec (fs : List (List Char)) (N : Nat)
    (exe target : List Char) (nc : Nat) (imageFormat : List Char)
    (rsp cm : Option (List Char)) (base : List Char) (hN : 0 < N) :
    ((BackgroundRender.renderTrace fs N exe target nc imageFormat rsp cm base).filterMap
        (fun e => match e with
          | BackgroundRender.Event.started i c => some (i, c)
          | _ => none)
      = (List.range fs.length).map (fun (i : Nat) =>
          (i, BackgroundRender.mkCmd exe target nc imageFormat rsp cm base
            (fs.getD i [])))) ∧
    ((BackgroundRender.renderTrace fs N exe target nc imageFormat rsp cm base).filter
        (fun e => match e with
          | BackgroundRender.Event.started _ _ => true
          | BackgroundRender.Event.slept _ => true
          | BackgroundRender.Event.joined _ => false)
      = ((List.range fs.length).map (fun (i : Nat) =>
          [BackgroundRender.Event.started i
            (BackgroundRender.mkCmd exe target nc imageFormat rsp cm base (fs.getD i [])),
           BackgroundRender.Event.slept 1])).flatten) ∧
    (∀ arr ∈ BackgroundRender.subarrays fs.length N, arr.length ≤ N) ∧
    (∀ (k1 k2 : Nat) (arr1 arr2 : List Nat), k1 < k2 →
      (BackgroundRender.subarrays fs.length N)[k1]? = some arr1 →
      (BackgroundRender.subarrays fs.length N)[k2]? = some arr2 →
      ∃ t1 t2,
        BackgroundRender.renderTrace fs N exe target nc imageFormat rsp cm base
          = t1 ++ t2 ∧
        (∀ i ∈ arr1, BackgroundRender.Event.joined i ∈ t1) ∧
        (∀ j c, BackgroundRender.Event.started j c ∈ t1 → j ∉ arr2)) := by
  refine ⟨?_, ?_, ?_, ?_⟩
  · show (BackgroundRender.renderLoop
        (fs.map (BackgroundRender.mkCmd exe target nc imageFormat rsp cm base))
        (BackgroundRender.subarrays fs.length N) []).filterMap _ = _
    rw [renderLoop_starts, subarrays_flatten fs.length N hN]
    exact List.map_congr_left (fun i hi => by
      rw [cmds_getD exe target nc imageFormat rsp cm base fs i (List.mem_range.mp hi)])
  · show (BackgroundRender.renderLoop
        (fs.map (BackgroundRender.mkCmd exe target nc imageFormat rsp cm base))
        (BackgroundRender.subarrays fs.length N) []).filter _ = _
    rw [renderLoop_filter_ss, subarrays_flatten fs.length N hN]
    refine congrArg List.flatten (List.map_congr_left (fun i hi => ?_))
    rw [cmds_getD exe target nc imageFormat rsp cm base fs i (List.mem_range.mp hi)]
  · intro arr harr
    obtain ⟨k, hk⟩ := List.mem_iff_getElem?.mp harr
    obtain ⟨_, harrEq⟩ := subarrays_chunk fs.length N k arr hk
    rw [harrEq, intRange_length]
    omega
  · intro k1 k2 arr1 arr2 hk h1 h2
    obtain ⟨t1, t2, heq, hjoin, hstart⟩ :=
      renderLoop_cut (fs.map (BackgroundRender.mkCmd exe target nc imageFormat rsp cm base))
        (BackgroundRender.subarrays fs.length N) [] k1 arr1 h1
    refine ⟨t1, t2, heq, hjoin, ?_⟩
    intro j c hj hjarr2
    have hmem := hstart j c hj
    rw [subarrays_take_flatten fs.length N (k1 + 1) hN, mem_intRange] at hmem
    obtain ⟨_, harr2Eq⟩ := subarrays_chunk fs.length N k2 arr2 h2
    rw [harr2Eq, mem_intRange] at hjarr2
    have hmul1 : (min (k1 + 1) ((fs.length + N - 1) / N)) * N ≤ (k1 + 1) * N :=
      Nat.mul_le_mul_right N (Nat.min_le_left _ _)
    have hmul2 : (k1 + 1) * N ≤ k2 * N := Nat.mul_le_mul_right N hk
    omega

theorem BackgroundRender.render_trace_spec_witness :
    BackgroundRender.subarrays
        (["s0.mb".data, "s1.mb".data, "s2.mb".data] : List (List Char)).length 2
      = [[0, 1], [2]] ∧
    ((BackgroundRender.renderTrace ["s0.mb".data, "s1.mb".data, "s2.mb".data] 2
        "Render".data "out".data 3 "png".data none none "base".data).filterMap
        (fun e => match e with
          | BackgroundRender.Event.started i c => some (i, c)
          | _ => none)
      = (List.range (["s0.mb".data, "s1.mb".data, "s2.mb".data] :
            List (List Char)).length).map (fun (i : Nat) =>
          (i, BackgroundRender.mkCmd "Render".data "out".data 3 "png".data none none
            "base".data ((["s0.mb".data, "s1.mb".data, "s2.mb".data] :
              List (List Char)).getD i [])))) ∧
    (∀ arr ∈ BackgroundRender.subarrays
        (["s0.mb".data, "s1.mb".data, "s2.mb".data] : List (List Char)).length 2,
      arr.length ≤ 2) := by
  obtain ⟨ha, _, hc, _⟩ :=
    BackgroundRender.render_trace_spec ["s0.mb".data, "s1.mb".data, "s2.mb".data] 2
      "Render".data "out".data 3 "png".data none none "base".data (by decide)
  exact ⟨by decide, ha, hc⟩

theorem isDigit_not_pySpace (c : Char) (h : c.isDigit = true) : isPySpace c = false := by
  obtain ⟨h1, _⟩ := isDigit_bounds c h
  have hne : ∀ d : Char, c.toNat ≠ d.toNat → (c == d) = false := by
    intro d hd
    rw [beq_eq_false_iff_ne]
    intro he
    exact hd (by rw [he])
  unfold isPySpace
  rw [hne ' ' (by rw [show (' ').toNat = 32 from rfl]; omega),
    hne '\t' (by rw [show ('\t').toNat = 9 from rfl]; omega),
    hne '\n' (by rw [show ('\n').toNat = 10 from rfl]; omega),
    hne '\r' (by rw [show ('\r').toNat = 13 from rfl]; omega),
    hne '\x0b' (by rw [show ('\x0b').toNat = 11 from rfl]; omega),
    hne '\x0c' (by rw [show ('\x0c').toNat = 12 from rfl]; omega)]
  rfl

theorem splitPyWSAux_cons (c : Char) (rest acc : List Char) :
    splitPyWSAux (c :: rest) acc =
      if isPySpace c then
        if acc.isEmpty then splitPyWSAux rest []
        else acc.reverse :: splitPyWSAux rest []
      else splitPyWSAux rest (c :: acc) := rfl

theorem splitPyWSAux_word (w : List Char) (hw : ∀ c ∈ w, isPySpace c = false) :
    ∀ rest acc, splitPyWSAux (w ++ rest) acc = splitPyWSAux rest (w.reverse ++ acc) := by
  induction w with
  | nil => intro rest acc; simp
  | cons c cs ih =>
    intro rest acc
    show splitPyWSAux (c :: (cs ++ rest)) acc = _
    rw [splitPyWSAux_cons, if_neg (by simp [hw c (List.mem_cons_self c cs)])]
    rw [ih (fun x hx => hw x (List.mem_cons_of_mem c hx)) rest (c :: acc)]
    simp

theorem splitPyWSAux_space (c : Char) (hc : isPySpace c = true) (rest acc : List Char)
    (ha : acc ≠ []) :
    splitPyWSAux (c :: rest) acc = acc.reverse :: splitPyWSAux rest [] := by
  rw [splitPyWSAux_cons, if_pos hc, if_neg (by simp [ha])]

theorem splitPyWS_three (w1 w2 w3 : List Char)
    (h1 : w1 ≠ []) (h2 : w2 ≠ []) (h3 : w3 ≠ [])
    (hn1 : ∀ c ∈ w1, isPySpace c = false) (hn2 : ∀ c ∈ w2, isPySpace c = false)
    (hn3 : ∀ c ∈ w3, isPySpace c = false) :
    splitPyWS (w1 ++ ' ' :: (w2 ++ ' ' :: (w3 ++ ['\n']))) = [w1, w2, w3] := by
  unfold splitPyWS
  rw [splitPyWSAux_word w1 hn1, List.append_nil,
    splitPyWSAux_space ' ' (by decide) _ _ (by simp [h1]), List.reverse_reverse,
    splitPyWSAux_word w2 hn2, List.append_nil,
    splitPyWSAux_space ' ' (by decide) _ _ (by simp [h2]), List.reverse_reverse,
    splitPyWSAux_word w3 hn3, List.append_nil,
    splitPyWSAux_space '\n' (by decide) _ _ (by simp [h3]), List.reverse_reverse]
  rfl

theorem startsWith_v_not_f (L : List Char) (h : startsWith "v ".data L = true) :
    startsWith "f ".data L = false := by
  cases L with
  | nil => exact absurd h (by decide)
  | cons c cs =>
    have h' : (('v' == c) && startsWith [' '] cs) = true := h
    simp only [Bool.and_eq_true] at h'
    have hc : c = 'v' := (beq_iff_eq.mp h'.1).symm
    subst hc
    rfl

theorem splitOnChar_headD_eq_takeWhile (sep : Char) (l : List Char) :
    (splitOnChar sep l).headD [] = l.takeWhile (fun c => !(c == sep)) := by
  induction l with
  | nil => rfl
  | cons c cs ih =>
    unfold splitOnChar
    cases hs : splitOnChar sep cs with
    | nil => exact absurd hs (splitOnChar_ne_nil sep cs)
    | cons r rs =>
      rw [hs] at ih
      by_cases hc : c = sep
      · subst hc
        simp [List.takeWhile_cons]
      · simp only [if_neg hc, List.takeWhile_cons]
        have hbe : (c == sep) = false := beq_eq_false_iff_ne.mpr hc
        rw [hbe]
        simp only [Bool.not_false, if_pos]
        rw [← ih]
        rfl

theorem Dec.val_mul (a b : Dec) : (Dec.mul a b).val = a.val * b.val := by
  unfold Dec.mul Dec.val
  push_cast
  rw [pow_add, div_mul_div_comm]

theorem Dec.val_neg (a : Dec) : (Dec.neg a).val = -a.val := by
  unfold Dec.neg Dec.val
  rw [Int.cast_neg, neg_div]

theorem Dec.eqv_cross (u v : Dec) (h : Dec.eqv u v = true) :
    u.num * 10 ^ v.exp = v.num * 10 ^ u.exp := by
  unfold Dec.eqv at h
  exact beq_iff_eq.mp h

theorem Dec.eqv_of_cross (u v : Dec) (h : u.num * 10 ^ v.exp = v.num * 10 ^ u.exp) :
    Dec.eqv u v = true := by
  unfold Dec.eqv
  exact beq_iff_eq.mpr h

theorem Dec.eqv_iff (a b : Dec) : Dec.eqv a b = true ↔ a.val = b.val := by
  constructor
  · intro h
    have hc := Dec.eqv_cross a b h
    unfold Dec.val
    rw [div_eq_div_iff (by positivity) (by positivity)]
    exact_mod_cast hc
  · intro h
    apply Dec.eqv_of_cross
    unfold Dec.val at h
    rw [div_eq_div_iff (by positivity) (by positivity)] at h
    exact_mod_cast h

theorem Dec.isOne_iff (a : Dec) : Dec.isOne a = true ↔ a.val = 1 := by
  unfold Dec.isOne Dec.val
  rw [beq_iff_eq, div_eq_one_iff_eq (by positivity)]
  constructor
  · intro h
    exact_mod_cast h
  · intro h
    exact_mod_cast h

theorem Dec.num_neg_iff (a : Dec) : a.num < 0 ↔ a.val < 0 := by
  unfold Dec.val
  constructor
  · intro h
    apply div_neg_of_neg_of_pos _ (by positivity)
    exact_mod_cast h
  · intro h
    by_contra hn
    push_neg at hn
    have : (0 : ℚ) ≤ (a.num : ℚ) / 10 ^ a.exp := by
      apply div_nonneg _ (by positivity)
      exact_mod_cast hn
    linarith

theorem roundHalfEven_eqv (n1 d1 n2 d2 : ℤ) (hd1 : 0 < d1) (hd2 : 0 < d2)
    (h : n1 * d2 = n2 * d1) : roundHalfEven n1 d1 = roundHalfEven n2 d2 := by
  have hq : d1 * (n1 / d1) + n1 % d1 = n1 := Int.ediv_add_emod n1 d1
  have hr0 : 0 ≤ n1 % d1 := Int.emod_nonneg n1 (ne_of_gt hd1)
  have hr1 : n1 % d1 < d1 := Int.emod_lt_of_pos n1 hd1
  set q := n1 / d1 with hqdef
  set r := n1 % d1 with hrdef
  have key : d1 * (n2 - d2 * q) = r * d2 := by linear_combination (-d2) * hq - h
  have hr2_0 : 0 ≤ n2 - d2 * q := by nlinarith [mul_nonneg hr0 (le_of_lt hd2)]
  have hr2_1 : n2 - d2 * q < d2 := by nlinarith [mul_lt_mul_of_pos_right hr1 hd2]
  obtain ⟨hq2, hr2⟩ :=
    (@Int.ediv_emod_unique n2 d2 (n2 - d2 * q) q hd2).mpr ⟨by ring, hr2_0, hr2_1⟩
  have hc1 : 2 * (n2 - d2 * q) < d2 ↔ 2 * r < d1 := by
    constructor
    · intro hh
      nlinarith [mul_lt_mul_of_pos_left hh hd1]
    · intro hh
      nlinarith [mul_lt_mul_of_pos_right hh hd2]
  have hc2 : d2 < 2 * (n2 - d2 * q) ↔ d1 < 2 * r := by
    constructor
    · intro hh
      nlinarith [mul_lt_mul_of_pos_left hh hd1]
    · intro hh
      nlinarith [mul_lt_mul_of_pos_right hh hd2]
  show (if 2 * r < d1 then q else if d1 < 2 * r then q + 1 else if q % 2 = 0 then q else q + 1)
    = (if 2 * (n2 % d2) < d2 then n2 / d2
      else if d2 < 2 * (n2 % d2) then n2 / d2 + 1
      else if (n2 / d2) % 2 = 0 then n2 / d2 else n2 / d2 + 1)
  rw [hq2, hr2]
  by_cases hA : 2 * r < d1
  · rw [if_pos hA, if_pos (hc1.mpr hA)]
  · by_cases hB : d1 < 2 * r
    · rw [if_neg hA, if_neg (fun hh => hA (hc1.mp hh)), if_pos hB, if_pos (hc2.mpr hB)]
    · rw [if_neg hA, if_neg (fun hh => hA (hc1.mp hh)), if_neg hB,
        if_neg (fun hh => hB (hc2.mp hh))]

theorem fmtAbs6_congr (u v : Dec) (h : Dec.eqv u v = true) : fmtAbs6 u = fmtAbs6 v := by
  have hc := Dec.eqv_cross u v h
  unfold fmtAbs6
  rw [roundHalfEven_eqv (u.num * 10 ^ 6) ((10 : ℤ) ^ u.exp) (v.num * 10 ^ 6)
    ((10 : ℤ) ^ v.exp) (by positivity) (by positivity) (by linear_combination (10 : ℤ) ^ 6 * hc)]

theorem fmtFixed6_congr (u v : Dec) (h : Dec.eqv u v = true) :
    fmtFixed6 u = fmtFixed6 v := by
  have hc := Dec.eqv_cross u v h
  have hsign : u.num < 0 ↔ v.num < 0 := by
    rw [Dec.num_neg_iff, Dec.num_neg_iff, (Dec.eqv_iff u v).mp h]
  unfold fmtFixed6
  by_cases hu : u.num < 0
  · rw [if_pos hu, if_pos (hsign.mp hu)]
    rw [fmtAbs6_congr ⟨-u.num, u.exp⟩ ⟨-v.num, v.exp⟩
      (Dec.eqv_of_cross _ _ (by dsimp; linear_combination -hc))]
  · rw [if_neg hu, if_neg (fun hh => hu (hsign.mpr hh)), fmtAbs6_congr u v h]

theorem fmtAbs6_ne_nil (v : Dec) : fmtAbs6 v ≠ [] := by
  unfold fmtAbs6
  intro h
  exact natRepr_ne_nil _ (List.append_eq_nil.mp h).1

theorem fmtFixed6_ne_nil (v : Dec) : fmtFixed6 v ≠ [] := by
  unfold fmtFixed6
  split
  · simp
  · exact fmtAbs6_ne_nil v

theorem fmtAbs6_no_space (v : Dec) : ∀ c ∈ fmtAbs6 v, isPySpace c = false := by
  intro c hc
  unfold fmtAbs6 at hc
  rcases List.mem_append.mp hc with h | h
  · exact isDigit_not_pySpace c (natRepr_all_digits _ c h)
  · rcases List.mem_cons.mp h with rfl | h'
    · decide
    · exact isDigit_not_pySpace c (padded_all_digits _ _ c h')

theorem fmtFixed6_no_space (v : Dec) : ∀ c ∈ fmtFixed6 v, isPySpace c = false := by
  intro c hc
  unfold fmtFixed6 at hc
  split at hc
  · rcases List.mem_cons.mp hc with rfl | h'
    · decide
    · exact fmtAbs6_no_space _ c h'
  · exact fmtAbs6_no_space _ c hc

theorem vertexBranch_scripts_eq :
    @SimplifyObjSequence.vertexBranch = @ResumeObj.vertexBranch := rfl

theorem SimplifyObjSequence.vertexBranch_ok (change : Bool) (scale : Dec)
    (line : List Char) (x y z : Dec) (h : vertexParse line = .ok (x, y, z)) :
    SimplifyObjSequence.vertexBranch change scale line
      = .ok (vertexOut (applyOps change scale (x, y, z))) := by
  unfold SimplifyObjSequence.vertexBranch
  rw [h]
  rfl

theorem ResumeObj.vertexBranch_ok_r (change : Bool) (scale : Dec)
    (line : List Char) (x y z : Dec) (h : vertexParse line = .ok (x, y, z)) :
    ResumeObj.vertexBranch change scale line
      = .ok (vertexOut (applyOps change scale (x, y, z))) := by
  unfold ResumeObj.vertexBranch
  rw [h]
  rfl

theorem SimplifyObjSequence.vertexBranch_ok_inv (change : Bool) (scale : Dec)
    (line : List Char) (v : List Char)
    (h : SimplifyObjSequence.vertexBranch change scale line = .ok v) :
    ∃ x y z : Dec, vertexParse line = .ok (x, y, z)
      ∧ v = vertexOut (applyOps change scale (x, y, z)) := by
  unfold SimplifyObjSequence.vertexBranch at h
  cases hp : vertexParse line with
  | error e =>
    rw [hp] at h
    exact Except.noConfusion h
  | ok t =>
    obtain ⟨x, y, z⟩ := t
    rw [hp] at h
    injection h with h
    exact ⟨x, y, z, rfl, by rw [← h]; rfl⟩

theorem SimplifyObjSequence.faceCompress_takeWhile (line : List Char) :
    SimplifyObjSequence.faceCompress line
      = 'f' :: ((splitPyWS (line.drop 2)).map
          (fun (r : List Char) => ' ' :: r.takeWhile (fun c => !(c == '/')))).flatten
          ++ ['\n'] := by
  unfold SimplifyObjSequence.faceCompress
  have hmap : ∀ r ∈ splitPyWS (line.drop 2),
      (fun (r : List Char) => ' ' :: (splitOnChar '/' r).headD []) r
        = (fun (r : List Char) => ' ' :: r.takeWhile (fun c => !(c == '/'))) r :=
    fun r _ => by
      show ' ' :: (splitOnChar '/' r).headD [] = ' ' :: r.takeWhile (fun c => !(c == '/'))
      rw [splitOnChar_headD_eq_takeWhile]
  rw [List.map_congr_left hmap]

theorem SimplifyObjSequence.processLine_mem (cud : Bool) (scale : Dec) (line : List Char)
    (ls : List (List Char))
    (h : SimplifyObjSequence.processLine true cud scale line = .ok ls) :
    ∀ l ∈ ls,
      (startsWith "v ".data l = true ∧ startsWith "v ".data line = true ∧
        ∃ x y z : Dec, vertexParse line = .ok (x, y, z) ∧
          l = vertexOut (applyOps cud scale (x, y, z))) ∨
      (startsWith "f ".data line = true ∧
        l = 'f' :: ((splitPyWS (line.drop 2)).map
          (fun (r : List Char) => ' ' :: r.takeWhile (fun c => !(c == '/')))).flatten
          ++ ['\n']) := by
  unfold SimplifyObjSequence.processLine at h
  by_cases hv : startsWith "v ".data line = true
  · rw [if_pos hv] at h
    cases hvb : SimplifyObjSequence.vertexBranch cud scale line with
    | error e =>
      rw [hvb] at h
      exact Except.noConfusion h
    | ok v =>
      rw [hvb] at h
      obtain ⟨x, y, z, hp, hveq⟩ := vertexBranch_ok_inv cud scale line v hvb
      injection h with h
      subst h
      intro l hl
      have hf := startsWith_v_not_f line hv
      rw [hf] at hl
      simp only [Bool.false_eq_true, if_false, List.append_nil, List.mem_singleton] at hl
      subst hl
      exact Or.inl ⟨by rw [hveq]; rfl, hv, x, y, z, hp, hveq⟩
  · rw [if_neg hv] at h
    injection h with h
    subst h
    intro l hl
    by_cases hfb : startsWith "f ".data line = true
    · rw [hfb] at hl
      simp only [if_pos, List.nil_append, List.mem_singleton] at hl
      subst hl
      exact Or.inr ⟨hfb, faceCompress_takeWhile line⟩
    · simp only [Bool.not_eq_true] at hfb
      rw [hfb] at hl
      simp at hl

/-- C3: with `compress=True`, `process_obj` of
src/mesh_processing/simplify_obj_sequence.py returns only rewritten
vertex lines and compressed face lines.  Every output line is either a
`"v %f %f %f\n"` rewrite of a source line starting `"v "` (after the
optional axis change and scaling), or the compression of a source line
starting `"f "` in which each whitespace-separated face element is
truncated to the text before its first `"/"` — so normal and
texture-coordinate references are dropped.  Every other line kind
(`vn`, `vt`, comments, group/object lines) produces no output. -/
theorem SimplifyObjSequence.compress_only_vertex_face
    (cud : Bool) (scale : Dec) (lines out : List (List Char))
    (h : SimplifyObjSequence.process_obj true cud scale lines = .ok out) :
    ∀ l ∈ out,
      (startsWith "v ".data l = true ∧
        ∃ src ∈ lines, startsWith "v ".data src = true ∧
          ∃ x y z : Dec, vertexParse src = .ok (x, y, z) ∧
            l = vertexOut (applyOps cud scale (x, y, z))) ∨
      (∃ src ∈ lines, startsWith "f ".data src = true ∧
        l = 'f' :: ((splitPyWS (src.drop 2)).map
          (fun (r : List Char) => ' ' :: r.takeWhile (fun c => !(c == '/')))).flatten
          ++ ['\n']) := by
  induction lines generalizing out with
  | nil =>
    injection h with h
    subst h
    intro l hl
    cases hl
  | cons line rest ih =>
    unfold SimplifyObjSequence.process_obj at h
    cases hpl : SimplifyObjSequence.processLine true cud scale line with
    | error e =>
      rw [hpl] at h
      exact Except.noConfusion h
    | ok ls =>
      rw [hpl] at h
      cases hpr : SimplifyObjSequence.process_obj true cud scale rest with
      | error e =>
        rw [hpr] at h
        exact Except.noConfusion h
      | ok t =>
        rw [hpr] at h
        injection h with h
        subst h
        intro l hl
        rcases List.mem_append.mp hl with hl | hl
        · rcases processLine_mem cud scale line ls hpl l hl with
            ⟨hvl, hvline, x, y, z, hp, heq⟩ | ⟨hfline, heq⟩
          · exact Or.inl ⟨hvl, line, List.mem_cons_self line rest, hvline, x, y, z, hp, heq⟩
          · exact Or.inr ⟨line, List.mem_cons_self line rest, hfline, heq⟩
        · rcases ih t hpr l hl with
            ⟨hvl, src, hsrc, hvline, x, y, z, hp, heq⟩ | ⟨src, hsrc, hfline, heq⟩
          · exact Or.inl ⟨hvl, src, List.mem_cons_of_mem line hsrc, hvline, x, y, z, hp, heq⟩
          · exact Or.inr ⟨src, List.mem_cons_of_mem line hsrc, hfline, heq⟩

theorem SimplifyObjSequence.compress_only_vertex_face_witness :
    SimplifyObjSequence.process_obj true false (Dec.mk 1 0)
        ["# c\n".data, "v 1 2 3\n".data, "vn 0 0 1\n".data, "f 1/4/7 2/5/8 3/6/9\n".data]
      = .ok ["v 1.000000 2.000000 3.000000\n".data, "f 1 2 3\n".data] ∧
    (∀ l ∈ ["v 1.000000 2.000000 3.000000\n".data, "f 1 2 3\n".data],
      (startsWith "v ".data l = true ∧
        ∃ src ∈ ["# c\n".data, "v 1 2 3\n".data, "vn 0 0 1\n".data,
            "f 1/4/7 2/5/8 3/6/9\n".data],
          startsWith "v ".data src = true ∧
          ∃ x y z : Dec, vertexParse src = .ok (x, y, z) ∧
            l = vertexOut (applyOps false (Dec.mk 1 0) (x, y, z))) ∨
      (∃ src ∈ ["# c\n".data, "v 1 2 3\n".data, "vn 0 0 1\n".data,
          "f 1/4/7 2/5/8 3/6/9\n".data],
        startsWith "f ".data src = true ∧
        l = 'f' :: ((splitPyWS (src.drop 2)).map
          (fun (r : List Char) => ' ' :: r.takeWhile (fun c => !(c == '/')))).flatten
          ++ ['\n'])) :=
  ⟨by decide,
    SimplifyObjSequence.compress_only_vertex_face false (Dec.mk 1 0)
      ["# c\n".data, "v 1 2 3\n".data, "vn 0 0 1\n".data, "f 1/4/7 2/5/8 3/6/9\n".data]
      ["v 1.000000 2.000000 3.000000\n".data, "f 1 2 3\n".data] (by decide)⟩

theorem Dec.eqv_one_mul (s a : Dec) (h : Dec.isOne s = true) :
    Dec.eqv a (Dec.mul s a) = true := by
  rw [Dec.eqv_iff, Dec.val_mul, (Dec.isOne_iff s).mp h, one_mul]

theorem vertexOut_congr (p q : Dec × Dec × Dec)
    (h1 : Dec.eqv p.1 q.1 = true) (h2 : Dec.eqv p.2.1 q.2.1 = true)
    (h3 : Dec.eqv p.2.2 q.2.2 = true) : vertexOut p = vertexOut q := by
  obtain ⟨a1, a2, a3⟩ := p
  obtain ⟨b1, b2, b3⟩ := q
  unfold vertexOut
  dsimp only at h1 h2 h3 ⊢
  rw [fmtFixed6_congr a1 b1 h1, fmtFixed6_congr a2 b2 h2, fmtFixed6_congr a3 b3 h3]

theorem vertexOut_one_scale (scale : Dec) (h : Dec.isOne scale = true)
    (q : Dec × Dec × Dec) : vertexOut q = vertexOut (scaleMap scale q) := by
  obtain ⟨a, b, c⟩ := q
  unfold scaleMap
  dsimp only
  exact vertexOut_congr (a, b, c) (Dec.mul scale a, Dec.mul scale b, Dec.mul scale c)
    (Dec.eqv_one_mul scale a h) (Dec.eqv_one_mul scale b h) (Dec.eqv_one_mul scale c h)

theorem vertexOut_applyOps_scale (change : Bool) (scale : Dec) (p : Dec × Dec × Dec) :
    vertexOut (applyOps change scale p)
      = vertexOut (scaleMap scale (if change then chgMap p else p)) := by
  unfold applyOps
  dsimp only
  by_cases h1 : Dec.isOne scale = true
  · rw [if_pos h1]
    exact vertexOut_one_scale scale h1 _
  · rw [if_neg h1]

/-- C8 (corrected): the vertex-rewriting branches of
src/mesh_processing/simplify_obj_sequence.py (`change_up_direction`) and
src/resume_obj.py (`change_yz`) are the same function; the guarded
up-axis change is the map `(x, y, z) -> (-x, z, y)` and that map is an
involution; and the `%f`-level round trip holds under the provisos the
original sentence is missing: the two scales must be exact inverses
(`s * t = 1` as float values) and the three intermediate scaled
coordinates must survive `"%f"` formatting losslessly (six fractional
digits).  Then resume's `process_obj` with `change_yz=True, scale=t`
applied to the output of simplify's `process_obj` with
`change_up_direction=True, scale=s` on a vertex line returns exactly
`"v %f %f %f\n"` of the original coordinates.  Without the
losslessness proviso the sentence is false (see the counterexample:
`s = 0.001` maps `x = 0.0001` to `1e-07`, which `"%f"` flattens to
zero, and scaling back by `1000` cannot recover it). -/
theorem up_axis_round_trip :
    (@SimplifyObjSequence.vertexBranch = @ResumeObj.vertexBranch) ∧
    (∀ p : Dec × Dec × Dec, chgMap (chgMap p) = p) ∧
    (∀ (change : Bool) (scale : Dec) (line : List Char) (x y z : Dec),
      vertexParse line = .ok (x, y, z) →
      ResumeObj.vertexBranch change scale line
        = .ok (vertexOut (applyOps change scale (x, y, z)))) ∧
    (∀ (compress : Bool) (s t : Dec) (L : List Char) (x y z A B C : Dec),
      Dec.isOne (Dec.mul s t) = true →
      startsWith "v ".data L = true →
      vertexParse L = .ok (x, y, z) →
      pyFloat (fmtFixed6 (Dec.mul s (Dec.neg x))) = .ok A →
      Dec.eqv A (Dec.mul s (Dec.neg x)) = true →
      pyFloat (fmtFixed6 (Dec.mul s z)) = .ok B →
      Dec.eqv B (Dec.mul s z) = true →
      pyFloat (fmtFixed6 (Dec.mul s y)) = .ok C →
      Dec.eqv C (Dec.mul s y) = true →
      ∃ mid : List Char,
        SimplifyObjSequence.process_obj compress true s [L] = .ok [mid] ∧
        ResumeObj.process_obj true t [mid] = .ok [vertexOut (x, y, z)]) := by
  refine ⟨rfl, ?_, ?_, ?_⟩
  · intro p
    obtain ⟨⟨n, e⟩, b, c⟩ := p
    show ((Dec.neg (Dec.neg ⟨n, e⟩), b, c) : Dec × Dec × Dec) = (⟨n, e⟩, b, c)
    unfold Dec.neg
    rw [neg_neg]
  · intro change scale line x y z h
    exact ResumeObj.vertexBranch_ok_r change scale line x y z h
  · intro compress s t L x y z A B C hst hL hp hA hAe hB hBe hC hCe
    have hf := startsWith_v_not_f L hL
    have hbranch := SimplifyObjSequence.vertexBranch_ok true s L x y z hp
    have hplS : SimplifyObjSequence.processLine compress true s L
        = .ok [vertexOut (applyOps true s (x, y, z))] := by
      unfold SimplifyObjSequence.processLine
      rw [if_pos hL, hbranch, hf]
      simp
    have hmid : vertexOut (applyOps true s (x, y, z))
        = vertexOut (scaleMap s (chgMap (x, y, z))) :=
      vertexOut_applyOps_scale true s (x, y, z)
    have hprocS : SimplifyObjSequence.process_obj compress true s [L]
        = .ok [vertexOut (scaleMap s (chgMap (x, y, z)))] := by
      unfold SimplifyObjSequence.process_obj
      rw [hplS]
      show Except.ok ([vertexOut (applyOps true s (x, y, z))] ++ []) = _
      rw [List.append_nil, hmid]
    have hsplit : splitPyWS ((vertexOut (scaleMap s (chgMap (x, y, z)))).drop 2)
        = [fmtFixed6 (Dec.mul s (Dec.neg x)), fmtFixed6 (Dec.mul s z),
            fmtFixed6 (Dec.mul s y)] := by
      have hss : (vertexOut (scaleMap s (chgMap (x, y, z)))).drop 2
          = fmtFixed6 (Dec.mul s (Dec.neg x))
            ++ ' ' :: (fmtFixed6 (Dec.mul s z)
              ++ ' ' :: (fmtFixed6 (Dec.mul s y) ++ ['\n'])) := by
        show (fmtFixed6 (Dec.mul s (Dec.neg x)) ++ ' ' :: fmtFixed6 (Dec.mul s z)
            ++ ' ' :: fmtFixed6 (Dec.mul s y) ++ ['\n'] : List Char) = _
        simp [List.append_assoc]
      rw [hss]
      exact splitPyWS_three _ _ _ (fmtFixed6_ne_nil _) (fmtFixed6_ne_nil _)
        (fmtFixed6_ne_nil _) (fmtFixed6_no_space _) (fmtFixed6_no_space _)
        (fmtFixed6_no_space _)
    have hpm : vertexParse (vertexOut (scaleMap s (chgMap (x, y, z)))) = .ok (A, B, C) := by
      unfold vertexParse
      rw [hsplit]
      show (match pyFloat (fmtFixed6 (Dec.mul s (Dec.neg x))) with
        | Except.error e => Except.error e
        | Except.ok xx =>
          match pyFloat (fmtFixed6 (Dec.mul s z)) with
          | Except.error e => Except.error e
          | Except.ok yy =>
            match pyFloat (fmtFixed6 (Dec.mul s y)) with
            | Except.error e => Except.error e
            | Except.ok zz => Except.ok (xx, yy, zz)) = Except.ok (A, B, C)
      rw [hA]
      show (match pyFloat (fmtFixed6 (Dec.mul s z)) with
        | Except.error e => Except.error e
        | Except.ok yy =>
          match pyFloat (fmtFixed6 (Dec.mul s y)) with
          | Except.error e => Except.error e
          | Except.ok zz => Except.ok (A, yy, zz)) = Except.ok (A, B, C)
      rw [hB]
      show (match pyFloat (fmtFixed6 (Dec.mul s y)) with
        | Except.error e => Except.error e
        | Except.ok zz => Except.ok (A, B, zz)) = Except.ok (A, B, C)
      rw [hC]
    have hvmid : startsWith "v ".data (vertexOut (scaleMap s (chgMap (x, y, z)))) = true :=
      rfl
    have hrb := ResumeObj.vertexBranch_ok_r true t _ A B C hpm
    have hstv : s.val * t.val = 1 := by
      have h := (Dec.isOne_iff (Dec.mul s t)).mp hst
      rwa [Dec.val_mul] at h
    have hAv := (Dec.eqv_iff _ _).mp hAe
    rw [Dec.val_mul, Dec.val_neg] at hAv
    have hBv := (Dec.eqv_iff _ _).mp hBe
    rw [Dec.val_mul] at hBv
    have hCv := (Dec.eqv_iff _ _).mp hCe
    rw [Dec.val_mul] at hCv
    have h1 : Dec.eqv (Dec.mul t (Dec.neg A)) x = true := by
      rw [Dec.eqv_iff, Dec.val_mul, Dec.val_neg, hAv]
      linear_combination (Dec.val x) * hstv
    have h2 : Dec.eqv (Dec.mul t C) y = true := by
      rw [Dec.eqv_iff, Dec.val_mul, hCv]
      linear_combination (Dec.val y) * hstv
    have h3 : Dec.eqv (Dec.mul t B) z = true := by
      rw [Dec.eqv_iff, Dec.val_mul, hBv]
      linear_combination (Dec.val z) * hstv
    have hfinal : vertexOut (applyOps true t (A, B, C)) = vertexOut (x, y, z) := by
      rw [vertexOut_applyOps_scale true t (A, B, C)]
      show vertexOut (scaleMap t (chgMap (A, B, C))) = vertexOut (x, y, z)
      rw [show scaleMap t (chgMap (A, B, C))
          = (Dec.mul t (Dec.neg A), Dec.mul t C, Dec.mul t B) from rfl]
      exact vertexOut_congr _ _ h1 h2 h3
    have hplR : ResumeObj.processLine true t (vertexOut (scaleMap s (chgMap (x, y, z))))
        = .ok [vertexOut (x, y, z)] := by
      unfold ResumeObj.processLine
      rw [if_pos hvmid, hrb, hfinal]
    have hprocR : ResumeObj.process_obj true t [vertexOut (scaleMap s (chgMap (x, y, z)))]
        = .ok [vertexOut (x, y, z)] := by
      unfold ResumeObj.process_obj
      rw [hplR]
      show Except.ok ([vertexOut (x, y, z)] ++ []) = _
      rw [List.append_nil]
    exact ⟨vertexOut (scaleMap s (chgMap (x, y, z))), hprocS, hprocR⟩

theorem up_axis_round_trip_witness :
    Dec.isOne (Dec.mul (Dec.mk 1 2) (Dec.mk 100 0)) = true ∧
    (∃ mid : List Char,
      SimplifyObjSequence.process_obj true true (Dec.mk 1 2) ["v 1 2 3\n".data]
        = .ok [mid] ∧
      ResumeObj.process_obj true (Dec.mk 100 0) [mid]
        = .ok [vertexOut (Dec.mk 1 0, Dec.mk 2 0, Dec.mk 3 0)]) :=
  ⟨by decide,
    up_axis_round_trip.2.2.2 true (Dec.mk 1 2) (Dec.mk 100 0) "v 1 2 3\n".data
      (Dec.mk 1 0) (Dec.mk 2 0) (Dec.mk 3 0)
      (Dec.mk (-10000) 6) (Dec.mk 30000 6) (Dec.mk 20000 6)
      (by decide) (by decide) (by decide) (by decide) (by decide) (by decide)
      (by decide) (by decide) (by decide)⟩

theorem up_axis_round_trip_counterexample :
    SimplifyObjSequence.process_obj true true (Dec.mk 1 3) ["v 0.0001 0 0\n".data]
      = .ok ["v -0.000000 0.000000 0.000000\n".data] ∧
    ResumeObj.process_obj true (Dec.mk 1000 0) ["v -0.000000 0.000000 0.000000\n".data]
      = .ok ["v 0.000000 0.000000 0.000000\n".data] ∧
    Dec.isOne (Dec.mul (Dec.mk 1 3) (Dec.mk 1000 0)) = true ∧
    vertexParse "v 0.0001 0 0\n".data = .ok (Dec.mk 1 4, Dec.mk 0 0, Dec.mk 0 0) ∧
    "v 0.000000 0.000000 0.000000\n".data
      ≠ vertexOut (Dec.mk 1 4, Dec.mk 0 0, Dec.mk 0 0) :=
  ⟨by decide, by decide, by decide, by decide, by decide⟩
